import Mathlib

unseal Rat.add Rat.mul Rat.inv Rat.sub

/-!
Verification of the Matching-Engine repository: a shallow embedding of the
scoring engine (`matching_engine.py`), domain classifier
(`domain_classification.py`), structural validator and JSON repair passes
(`json_parser.py`, `llm_extraction.py`), together with theorems settling the
frozen claims about the specification.

Python dynamic values are embedded as the inductive `PyVal`; Python numbers
(int and float alike) are embedded as exact rationals; code that can raise is
embedded in `Except String`.
-/

/-- Named characters, to keep delimiter characters out of string literals. -/
def qch : Char := Char.ofNat 34

def apch : Char := Char.ofNat 39

def btch : Char := Char.ofNat 96

def bsch : Char := Char.ofNat 92

def obch : Char := Char.ofNat 123

def cbch : Char := Char.ofNat 125

/-- Python `\s` (ASCII part; the theorems below are stated on ASCII data). -/
def isPySpace (c : Char) : Bool :=
  c = ' ' || c = Char.ofNat 9 || c = Char.ofNat 10 || c = Char.ofNat 13 ||
  c = Char.ofNat 11 || c = Char.ofNat 12

/-- Python `\w` for ASCII: letters, digits and underscore. -/
def isWordChar (c : Char) : Bool :=
  c.isAlpha || c.isDigit || c = '_'

/-- First character of an unquoted key: `[a-zA-Z_]`. -/
def isKeyStart (c : Char) : Bool :=
  c.isAlpha || c = '_'

/-- Embedding of Python runtime values (`None`, bool, numbers as exact
rationals, str, list, dict as an association list). -/
inductive PyVal where
  | vnone : PyVal
  | vbool : Bool → PyVal
  | vnum : ℚ → PyVal
  | vstr : String → PyVal
  | vlist : List PyVal → PyVal
  | vdict : List (String × PyVal) → PyVal

open PyVal

mutual

/-- Structural equality test for `PyVal`. -/
def pvBeq : PyVal → PyVal → Bool
  | vnone, vnone => true
  | vbool a, vbool b => a = b
  | vnum a, vnum b => a = b
  | vstr a, vstr b => a = b
  | vlist a, vlist b => pvBeqL a b
  | vdict a, vdict b => pvBeqD a b
  | _, _ => false

/-- Structural equality test for lists of `PyVal`. -/
def pvBeqL : List PyVal → List PyVal → Bool
  | [], [] => true
  | x :: xs, y :: ys => pvBeq x y && pvBeqL xs ys
  | _, _ => false

/-- Structural equality test for dict entry lists. -/
def pvBeqD : List (String × PyVal) → List (String × PyVal) → Bool
  | [], [] => true
  | (k1, x) :: xs, (k2, y) :: ys => k1 = k2 && pvBeq x y && pvBeqD xs ys
  | _, _ => false

end

mutual

theorem pvBeq_iff : ∀ a b : PyVal, pvBeq a b = true ↔ a = b
  | vnone, b => by cases b <;> simp [pvBeq]
  | vbool x, b => by cases b <;> simp [pvBeq]
  | vnum x, b => by cases b <;> simp [pvBeq]
  | vstr x, b => by cases b <;> simp [pvBeq]
  | vlist l, b => by
      cases b <;> simp [pvBeq]
      exact pvBeqL_iff l _
  | vdict d, b => by
      cases b <;> simp [pvBeq]
      exact pvBeqD_iff d _

theorem pvBeqL_iff : ∀ a b : List PyVal, pvBeqL a b = true ↔ a = b
  | [], b => by cases b <;> simp [pvBeqL]
  | x :: xs, b => by
      cases b with
      | nil => simp [pvBeqL]
      | cons y ys =>
          simp [pvBeqL, Bool.and_eq_true, pvBeq_iff x y, pvBeqL_iff xs ys]

theorem pvBeqD_iff : ∀ a b : List (String × PyVal), pvBeqD a b = true ↔ a = b
  | [], b => by cases b <;> simp [pvBeqD]
  | (k, x) :: xs, b => by
      cases b with
      | nil => simp [pvBeqD]
      | cons y ys =>
          obtain ⟨k2, y⟩ := y
          simp [pvBeqD, Bool.and_eq_true, pvBeq_iff x y, pvBeqD_iff xs ys,
            and_assoc]

end

instance : DecidableEq PyVal := fun a b => decidable_of_iff _ (pvBeq_iff a b)

/-- Python truthiness. -/
def truthy : PyVal → Bool
  | vnone => false
  | vbool b => b
  | vnum q => decide (q ≠ 0)
  | vstr s => decide (s ≠ "")
  | vlist l => !l.isEmpty
  | vdict d => !d.isEmpty

/-- First-occurrence lookup in a dict (Python dict keys are unique, so an
association-list lookup is faithful). -/
def dlookup (k : String) : List (String × PyVal) → Option PyVal
  | [] => none
  | (k2, v) :: rest => if k2 = k then some v else dlookup k rest

/-- `d[k] = v`: replace the first binding of `k`, or append one. -/
def dset (k : String) (v : PyVal) : List (String × PyVal) → List (String × PyVal)
  | [] => [(k, v)]
  | (k2, w) :: rest => if k2 = k then (k2, v) :: rest else (k2, w) :: dset k v rest

/-- `d.get(k, dflt)` on an embedded value; raises (AttributeError) when the
receiver is not a dict, as Python does. -/
def pyGet (v : PyVal) (k : String) (dflt : PyVal) : Except String PyVal :=
  match v with
  | vdict d => .ok ((dlookup k d).getD dflt)
  | _ => .error "AttributeError: get"

/-- Python `int()` truncation toward zero on a rational (`Rat.floor` is the
computable floor). -/
def pyTrunc (q : ℚ) : ℤ :=
  if 0 ≤ q then q.floor else -(-q).floor

/-- `Rat.floor` agrees with the mathematical floor. -/
theorem ratFloor_eq_intFloor (q : ℚ) : q.floor = ⌊q⌋ :=
  le_antisymm (Int.le_floor.mpr (Rat.le_floor.mp (le_refl _)))
    (Rat.le_floor.mpr (Int.le_floor.mp (le_refl _)))

theorem pyTrunc_nonneg_eq_floor {q : ℚ} (h : 0 ≤ q) : pyTrunc q = ⌊q⌋ := by
  simp [pyTrunc, h, ratFloor_eq_intFloor]

/-- Python `round()` on a rational: round half to even. -/
def pyRound (q : ℚ) : ℤ :=
  let f := q.floor
  let r := q - f
  if r < 1/2 then f
  else if 1/2 < r then f + 1
  else if f % 2 = 0 then f else f + 1

-- ==================== skill matching (matching_engine.py) ====================

/-- Lowercase latin letter or digit (the character class kept by
`re.sub(..[^a-z0-9\s].., "", skill)` after lowercasing). -/
def isLowerAlphaNum (c : Char) : Bool :=
  (decide (Char.ofNat 97 ≤ c) && decide (c ≤ Char.ofNat 122)) || c.isDigit

/-- Accumulator pass for `str.split()`: `acc` is the current field, reversed. -/
def pySplitWsAux : List Char → List Char → List (List Char)
  | [], acc => if acc.isEmpty then [] else [acc.reverse]
  | c :: r, acc =>
      if isPySpace c then
        if acc.isEmpty then pySplitWsAux r [] else acc.reverse :: pySplitWsAux r []
      else pySplitWsAux r (c :: acc)

/-- `str.split()` on whitespace, dropping empty fields. -/
def pySplitWs (l : List Char) : List (List Char) :=
  pySplitWsAux l []

/-- `" ".join(parts)`. -/
def joinSpace : List (List Char) → List Char
  | [] => []
  | [w] => w
  | w :: rest => w ++ ' ' :: joinSpace rest

/-- `str.strip()` (whitespace trim on both ends). -/
def trimPySpace (l : List Char) : List Char :=
  ((l.dropWhile isPySpace).reverse.dropWhile isPySpace).reverse

/-- `normalize_skill` from matching_engine.py: lowercase, strip, delete
characters outside `[a-z0-9\s]`, collapse internal whitespace. -/
def normalize_skill (skill : String) : String :=
  if skill = "" then ""
  else
    let l := skill.data.map Char.toLower
    let l := trimPySpace l
    let l := l.filter (fun c => isLowerAlphaNum c || isPySpace c)
    String.mk (joinSpace (pySplitWs l))

/-- Does `p` occur as a prefix of `l`? -/
def listStartsWith : List Char → List Char → Bool
  | [], _ => true
  | _ :: _, [] => false
  | p :: ps, c :: cs => p = c && listStartsWith ps cs

/-- Does `pat` occur as a contiguous segment of `l`? -/
def listInfix (pat : List Char) : List Char → Bool
  | [] => pat.isEmpty
  | c :: rest => listStartsWith pat (c :: rest) || listInfix pat rest

/-- Substring containment (Python `a in b`). -/
def strIn (a b : String) : Bool :=
  listInfix a.data b.data

/-- `find_skill_match` from matching_engine.py.

The two external collaborators are passed as parameters so that every theorem
below holds for all of them: `ratio` embeds `SequenceMatcher(None, a, b).ratio()`
(difflib) and `grp` embeds `get_skill_group` from the `skills_analogy` module,
which is not part of the repository sources.  `grp` returning `none` embeds a
Python falsy group; a `some g` result is truthy when `g` is nonempty. -/
def find_skill_match (ratio : String → String → ℚ) (grp : String → Option String)
    (similarity_threshold : ℚ) (candidate_skill required_skill : String) :
    Bool × String × ℚ :=
  let cand_norm := normalize_skill candidate_skill
  let req_norm := normalize_skill required_skill
  if cand_norm = "" || req_norm = "" then (false, "invalid", 0)
  else if cand_norm = req_norm then (true, "exact", 1)
  else
    let analogy :=
      match grp candidate_skill, grp required_skill with
      | some g1, some g2 => decide (g1 ≠ "") && decide (g2 ≠ "") && decide (g1 = g2)
      | _, _ => false
    if analogy then (true, "analogy", 19/20)
    else
      let similarity := ratio cand_norm req_norm
      if similarity_threshold ≤ similarity then (true, "fuzzy", similarity)
      else if 3 < req_norm.length && 3 < cand_norm.length &&
          (strIn cand_norm req_norm || strIn req_norm cand_norm) then
        (true, "substring", 22/25)
      else (false, "no_match", 0)

/-- A trivial stand-in similarity used only to instantiate witnesses. -/
def ratioZero : String → String → ℚ := fun _ _ => 0

/-- A trivial stand-in analogy-group map used only to instantiate witnesses. -/
def grpNone : String → Option String := fun _ => none

-- ==================== Python coercions ====================

/-- Rendering of an embedded number.  (Python prints floats and ints with
decimal notation; this rendering is only used inside human-readable `details`
strings, which no claim inspects, so a fraction rendering is used for
non-integral values.) -/
def pyNumStr (q : ℚ) : String :=
  if q.den = 1 then toString q.num else toString q.num ++ "/" ++ toString q.den

mutual

/-- Python `repr` of an embedded value (element rendering inside containers). -/
def pyRepr : PyVal → String
  | vnone => "None"
  | vbool b => if b then "True" else "False"
  | vnum q => pyNumStr q
  | vstr s => String.mk (apch :: s.data ++ [apch])
  | vlist l => "[" ++ pyReprList l ++ "]"
  | vdict d => String.mk [obch] ++ pyReprDict d ++ String.mk [cbch]

/-- Comma-separated reprs of list elements. -/
def pyReprList : List PyVal → String
  | [] => ""
  | [x] => pyRepr x
  | x :: y :: rest => pyRepr x ++ ", " ++ pyReprList (y :: rest)

/-- Comma-separated reprs of dict entries. -/
def pyReprDict : List (String × PyVal) → String
  | [] => ""
  | [(k, x)] => pyRepr (vstr k) ++ ": " ++ pyRepr x
  | (k, x) :: e :: rest => pyRepr (vstr k) ++ ": " ++ pyRepr x ++ ", " ++ pyReprDict (e :: rest)

end

/-- Python `str()` of an embedded value. -/
def pyStr : PyVal → String
  | vstr s => s
  | v => pyRepr v

/-- Value of a digit string. -/
def digitsVal (l : List Char) : ℕ :=
  l.foldl (fun acc c => 10 * acc + (c.toNat - 48)) 0

/-- Parse of a decimal significand `d+ | d+.d* | .d+`, returning its value and
the unconsumed rest. -/
def parseDecPart (l : List Char) : Option (ℚ × List Char) :=
  let ip := l.takeWhile Char.isDigit
  let r := l.dropWhile Char.isDigit
  match r with
  | '.' :: r2 =>
      let fp := r2.takeWhile Char.isDigit
      let r3 := r2.dropWhile Char.isDigit
      if ip.isEmpty && fp.isEmpty then none
      else some ((digitsVal ip : ℚ) + (digitsVal fp : ℚ) / ((10 : ℚ) ^ fp.length), r3)
  | _ => if ip.isEmpty then none else some ((digitsVal ip : ℚ), r)

/-- Result of Python `float()`: a finite value (kept exact), a signed
infinity, or NaN. -/
inductive PyFloat where
  | fin : ℚ → PyFloat
  | inf : Bool → PyFloat
  | nan : PyFloat
deriving DecidableEq

/-- Decimal strings of at least this magnitude convert to IEEE-754 double
infinity: `2 ^ 1024 - 2 ^ 970`, half an ulp above the largest finite
double (round-half-even sends the midpoint up). -/
def ovfThreshold : ℚ :=
  179769313486231580793728971405303415079934132710037826936173778980444968292764750946649017977587207096330286416692887910946555547851940402630657488671505820681908902000708383676273854845817711531764475730270069855571366959622842914819860834936475292719074168444365510704342711559699508093042880177904174497792

/-- Embedding of Python `float(string)`: optional sign, then either an
`inf`/`infinity`/`nan` spelling (case-insensitive) or a decimal significand
with optional exponent; a finite literal at or beyond the double range
overflows to infinity.  (Python additionally accepts underscore separators
and flushes tiny literals to zero; no claim depends on those.) -/
def parsePyFloat (s : String) : Option PyFloat :=
  let l := trimPySpace s.data
  let (neg, l1) : Bool × List Char :=
    match l with
    | '-' :: r => (true, r)
    | '+' :: r => (false, r)
    | _ => (false, l)
  let low := l1.map Char.toLower
  if low = ['i', 'n', 'f'] || low = ['i', 'n', 'f', 'i', 'n', 'i', 't', 'y'] then
    some (.inf neg)
  else if low = ['n', 'a', 'n'] then some .nan
  else
    let sgn : ℚ := if neg then -1 else 1
    match parseDecPart l1 with
    | none => none
    | some (m, rest) =>
        match rest with
        | [] => some (if ovfThreshold ≤ m then .inf neg else .fin (sgn * m))
        | e :: r2 =>
            if e = 'e' || e = 'E' then
              let (esgn, r3) : Bool × List Char :=
                match r2 with
                | '-' :: r4 => (true, r4)
                | '+' :: r4 => (false, r4)
                | _ => (false, r2)
              let ed := r3.takeWhile Char.isDigit
              if ed.isEmpty || !(r3.dropWhile Char.isDigit).isEmpty then none
              else
                let ex : ℚ := (10 : ℚ) ^ digitsVal ed
                let mag := m * (if esgn then ex⁻¹ else ex)
                some (if ovfThreshold ≤ mag then .inf neg else .fin (sgn * mag))
            else none

/-- Python `float(value)`; raises on values float() rejects. -/
def pyFloat : PyVal → Except String PyFloat
  | vnum q => .ok (.fin q)
  | vbool b => .ok (.fin (if b then 1 else 0))
  | vstr s =>
      match parsePyFloat s with
      | some f => .ok f
      | none => .error "ValueError: float"
  | vnone => .error "TypeError: float"
  | vlist _ => .error "TypeError: float"
  | vdict _ => .error "TypeError: float"

/-- Python `value or 0`. -/
def pyOrZero (v : PyVal) : PyVal :=
  if truthy v then v else vnum 0

-- ==================== experience (matching_engine.py) ====================

/-- Result record of `check_experience_match`. -/
structure ExpResult where
  met : Bool
  candidateExperience : ℤ
  requiredExperience : ℤ
  details : String
  score : ℤ
  percentage : ℤ
deriving DecidableEq

/-- The bare-`except` `try` block at the top of `check_experience_match`:
both year counts, falling back to `(0, 0)` when any lookup or float()
coercion raises.  A successful float() can still return an infinity or NaN
(e.g. the string `"inf"`), which passes through. -/
def expYears (resume_data jd_data : PyVal) : PyFloat × PyFloat :=
  match pyGet resume_data "totalYearsExperience" (vnum 0),
      pyGet jd_data "minExperienceYears" (vnum 0) with
  | .ok a, .ok b =>
      match pyFloat (pyOrZero a), pyFloat (pyOrZero b) with
      | .ok ca, .ok cb => (ca, cb)
      | _, _ => (.fin 0, .fin 0)
  | _, _ => (.fin 0, .fin 0)

/-- `check_experience_match` from matching_engine.py.  The `int()` calls in
the detail f-strings sit outside the `try`, so an infinite year count raises
`OverflowError` and a NaN raises `ValueError`: every branch interpolates
`int(candidate_years)` (and, when it is reached with a non-finite value,
`int(required_years)`), so the call raises exactly when either year is
non-finite, and otherwise returns the record built from the finite values. -/
def check_experience_match (resume_data jd_data : PyVal) : Except String ExpResult :=
  let p := expYears resume_data jd_data
  match p.1, p.2 with
  | .fin candidate_years, .fin required_years =>
      let met := decide (required_years ≤ candidate_years)
      let spd : ℤ × ℤ × String :=
        if required_years = 0 then
          (35, 100, "No specific experience required. Candidate has " ++
            toString (pyTrunc candidate_years) ++ " years. ✅ MATCHES.")
        else if required_years ≤ candidate_years then
          (35, 100, "Candidate has " ++ toString (pyTrunc candidate_years) ++
            " years, Required: " ++ toString (pyTrunc required_years) ++ " years. ✅ MATCHES.")
        else
          let percentage : ℤ :=
            if 0 < required_years then pyTrunc (candidate_years / required_years * 100) else 0
          let score : ℤ :=
            if 0 < required_years then pyTrunc (candidate_years / required_years * 35) else 0
          (max 1 score, percentage, "Candidate has " ++ toString (pyTrunc candidate_years) ++
            " years, Required: " ++ toString (pyTrunc required_years) ++ " years. ⚠️ " ++
            toString percentage ++ "% match.")
      .ok
        { met := met
          candidateExperience := pyTrunc candidate_years
          requiredExperience := pyTrunc required_years
          details := spd.2.2
          score := spd.1
          percentage := min 100 spd.2.1 }
  | _, _ => .error "int() of an infinite or NaN year count"

-- ==================== education (matching_engine.py) ====================

/-- `EDUCATION_HIERARCHY`, in source declaration order. -/
def EDUCATION_HIERARCHY : List (String × ℤ) :=
  [("phd", 4), ("doctorate", 4), ("master", 3), ("m.tech", 3), ("mba", 3),
   ("bachelor", 2), ("b.tech", 2), ("b.s", 2), ("b.a", 2), ("diploma", 1),
   ("high school", 0)]

/-- First hierarchy entry whose key occurs inside the lowered degree string. -/
def findHier (dl : String) : List (String × ℤ) → Option (String × ℤ)
  | [] => none
  | (k, v) :: rest => if strIn k dl then some (k, v) else findHier dl rest

/-- `normalize_education` from matching_engine.py. -/
def normalize_education (degree : PyVal) : String × ℤ :=
  if !truthy degree then ("not specified", 0)
  else
    let dl := String.mk (trimPySpace ((pyStr degree).data.map Char.toLower))
    match findHier dl EDUCATION_HIERARCHY with
    | some kv => kv
    | none => (dl, 0)

/-- Result record of `check_education_match`. -/
structure EduResult where
  met : Bool
  candidateDegree : PyVal
  requiredDegree : PyVal
  details : String
  score : ℤ
  percentage : ℤ
  isOverqualified : Bool
deriving DecidableEq

/-- The scan for the highest degree among the education entries: returns
`(highest_degree, highest_level)`, starting from `("not specified", 0)`. -/
def scanHighest : List PyVal → PyVal × ℤ → PyVal × ℤ
  | [], acc => acc
  | edu_item :: rest, (hd, hl) =>
      let degree_str : PyVal :=
        match edu_item with
        | vdict d => (dlookup "degree" d).getD (vstr "not specified")
        | _ => vstr (if truthy edu_item then pyStr edu_item else "not specified")
      let nl := normalize_education degree_str
      if hl < nl.2 then scanHighest rest (degree_str, nl.2) else scanHighest rest (hd, hl)

/-- Python iteration over a value (`for x in v`): lists yield elements,
strings yield one-character strings, dicts yield their keys; other values
raise TypeError. -/
def pyIter : PyVal → Except String (List PyVal)
  | vlist l => .ok l
  | vstr s => .ok (s.data.map (fun c => vstr (String.mk [c])))
  | vdict d => .ok (d.map (fun kv => vstr kv.1))
  | _ => .error "TypeError: not iterable"

/-- `v.strip()`: raises AttributeError on non-strings. -/
def pyStripStr : PyVal → Except String String
  | vstr s => .ok (String.mk (trimPySpace s.data))
  | _ => .error "AttributeError: strip"

/-- `check_education_match` from matching_engine.py. -/
def check_education_match (resume_data jd_data : PyVal) : Except String EduResult := do
  let education_list ← pyGet resume_data "education" (vlist [])
  let chl : PyVal × ℤ :=
    match education_list with
    | vlist l =>
        if l.isEmpty then (vstr "not specified", 0)
        else
          let p := scanHighest l (vstr "not specified", 0)
          (if p.1 = vstr "not specified" then vstr "not specified" else p.1, p.2)
    | _ => (vstr "not specified", 0)
  let candidate_degree := chl.1
  let candidate_level := chl.2
  let required_degree ← pyGet jd_data "requiredEducation" (vstr "not specified")
  let required_level := (normalize_education required_degree).2
  let met := decide (required_level ≤ candidate_level)
  let spd : ℤ × ℤ × String :=
    if required_level = 0 || required_degree = vstr "not specified" then
      (25, 100, "No specific education required. ✅ MATCHES.")
    else if required_level ≤ candidate_level then
      (25, 100,
        if required_level < candidate_level then
          "Candidate is OVERQUALIFIED! Has " ++ pyStr candidate_degree ++
          " (required: " ++ pyStr required_degree ++ "). 🎓 EXCELLENT!"
        else
          "Candidate has " ++ pyStr candidate_degree ++ ", Required: " ++
          pyStr required_degree ++ ". ✅ MATCHES.")
    else
      let percentage : ℤ :=
        if 0 < required_level then pyTrunc ((candidate_level : ℚ) / required_level * 100) else 0
      let score : ℤ :=
        if 0 < required_level then pyTrunc ((candidate_level : ℚ) / required_level * 25) else 0
      (max 1 score, percentage, "Candidate has " ++ pyStr candidate_degree ++
        ", Required: " ++ pyStr required_degree ++ ". ⚠️ " ++ toString percentage ++ "% match.")
  pure
    { met := met
      candidateDegree := candidate_degree
      requiredDegree := required_degree
      details := spd.2.2
      score := spd.1
      percentage := min 100 spd.2.1
      isOverqualified := decide (required_level < candidate_level) && decide (0 < required_level) }

-- ==================== skills (matching_engine.py) ====================

/-- The name contributed by one candidate skill entry: dict entries give
`skill.get("name", "").strip()` (raising when the name value is not a
string), other entries give `str(skill).strip()` when truthy, else `""`. -/
def candSkillName : PyVal → Except String String
  | vdict d => pyStripStr ((dlookup "name" d).getD (vstr ""))
  | v => .ok (if truthy v then String.mk (trimPySpace (pyStr v).data) else "")

/-- Candidate skill-name extraction loop of `check_skills_match`; empty names
are skipped, the first raising entry propagates. -/
def extractCandSkills : List PyVal → Except String (List String)
  | [] => .ok []
  | skill :: rest =>
      match candSkillName skill, extractCandSkills rest with
      | .ok skill_name, .ok tail =>
          .ok (if skill_name = "" then tail else skill_name :: tail)
      | .error e, _ => .error e
      | .ok _, .error e => .error e

/-- Required skill extraction: `[str(s).strip() for s in lst if s and str(s).strip()]`. -/
def extractReqSkills (l : List PyVal) : List String :=
  l.filterMap fun s =>
    let t := String.mk (trimPySpace (pyStr s).data)
    if truthy s && decide (t ≠ "") then some t else none

/-- One `skillMatchDetails` entry. -/
structure SkillDetail where
  required : String
  matched : Option String
  mtype : Option String
  confidence : ℚ
deriving DecidableEq

/-- `round(x, 2)` (Python banker rounding at two decimals). -/
def roundTo2 (q : ℚ) : ℚ :=
  (pyRound (q * 100) : ℚ) / 100

/-- Inner loop of `check_skills_match` for one required skill, in scan order:
whether any candidate matched so far, and the best match found
(candidate, strategy, confidence), starting from `(false, none, none, 0)`. -/
def bestMatchLoop (ratio : String → String → ℚ) (grp : String → Option String)
    (req_skill : String) :
    List String → Bool × Option String × Option String × ℚ →
    Bool × Option String × Option String × ℚ
  | [], st => st
  | cand :: rest, (found, bm, bt, bc) =>
      let r := find_skill_match ratio grp (7/10) cand req_skill
      if r.1 then
        if bc < r.2.2 then bestMatchLoop ratio grp req_skill rest (true, some cand, some r.2.1, r.2.2)
        else bestMatchLoop ratio grp req_skill rest (true, bm, bt, bc)
      else bestMatchLoop ratio grp req_skill rest (found, bm, bt, bc)

/-- Outer loop of `check_skills_match`: returns
`(matched_skills, missing_skills, skill_match_details)`. -/
def skillLoop (ratio : String → String → ℚ) (grp : String → Option String)
    (candidate_skills : List String) :
    List String → List String × List String × List SkillDetail
  | [] => ([], [], [])
  | req_skill :: rest =>
      let st := bestMatchLoop ratio grp req_skill candidate_skills (false, none, none, 0)
      let tail := skillLoop ratio grp candidate_skills rest
      if st.1 then
        (req_skill :: tail.1, tail.2.1,
          { required := req_skill, matched := st.2.1, mtype := st.2.2.1,
            confidence := roundTo2 st.2.2.2 } :: tail.2.2)
      else (tail.1, req_skill :: tail.2.1, tail.2.2)

/-- Result record of `check_skills_match`. -/
structure SkillsResult where
  met : Bool
  candidateSkillsCount : ℕ
  requiredSkillsCount : ℕ
  percentage : ℤ
  matchedSkills : List String
  missingSkills : List String
  skillMatchDetails : List SkillDetail
  details : String
  score : ℤ
  allCandidateSkills : List String
deriving DecidableEq

/-- `check_skills_match` from matching_engine.py. -/
def check_skills_match (ratio : String → String → ℚ) (grp : String → Option String)
    (resume_data jd_data : PyVal) : Except String SkillsResult := do
  let candidate_skills_list ← pyGet resume_data "skills" (vlist [])
  let candIter ← pyIter candidate_skills_list
  let candidate_skills ← extractCandSkills candIter
  let required_skills_list ← pyGet jd_data "requiredSkills" (vlist [])
  let reqIter ← pyIter required_skills_list
  let required_skills := extractReqSkills reqIter
  if required_skills.isEmpty then
    pure
      { met := true
        candidateSkillsCount := candidate_skills.length
        requiredSkillsCount := 0
        percentage := 100
        matchedSkills := candidate_skills
        missingSkills := []
        skillMatchDetails := []
        details := "No specific skills required. Candidate has " ++
          toString candidate_skills.length ++ " skills. ✅ MATCHES."
        score := 40
        allCandidateSkills := candidate_skills }
  else
    let mms := skillLoop ratio grp candidate_skills required_skills
    let matched_skills := mms.1
    let missing_skills := mms.2.1
    let skill_match_details := mms.2.2
    let m : ℚ := matched_skills.length
    let n : ℚ := required_skills.length
    let percentage : ℤ := pyTrunc (m / n * 100)
    let score0 : ℤ := pyTrunc (m / n * 40)
    let score : ℤ := if matched_skills.isEmpty then 0 else max 1 score0
    let met := decide (50 ≤ percentage)
    let details :=
      if percentage = 0 then
        "❌ No matching skills! Candidate has " ++ toString candidate_skills.length ++
        ", Required: " ++ toString required_skills.length
      else
        let frac := toString matched_skills.length ++ "/" ++
          toString required_skills.length ++ " required skills (" ++
          toString percentage ++ "%). "
        if percentage < 25 then "⚠️ " ++ frac ++ "Limited match."
        else if percentage < 50 then "⚠️ " ++ frac ++ "Partial match."
        else if percentage < 75 then "✅ " ++ frac ++ "Good match!"
        else "✅ " ++ frac ++ "Excellent match!"
    pure
      { met := met
        candidateSkillsCount := matched_skills.length
        requiredSkillsCount := required_skills.length
        percentage := percentage
        matchedSkills := matched_skills
        missingSkills := missing_skills
        skillMatchDetails := skill_match_details
        details := details
        score := score
        allCandidateSkills := candidate_skills }

-- ==================== domain (domain_classification.py) ====================

/-- Generic association-list lookup keyed by strings. -/
def alookup {α : Type} (k : String) : List (String × α) → Option α
  | [] => none
  | (k2, v) :: rest => if k2 = k then some v else alookup k rest

/-- `DOMAIN_COMPATIBILITY_MATRIX` from domain_classification.py, verbatim. -/
def DOMAIN_COMPATIBILITY_MATRIX : List (String × List (String × ℚ)) :=
  [("IT/Software",
    [("IT/Software", 100), ("Backend Development", 95), ("Frontend Development", 90),
     ("AI/ML/Data Science", 75), ("DevOps/Cloud", 85), ("QA/Testing", 80),
     ("Finance/Accounting", 20), ("Healthcare", 15), ("Sales/Marketing", 10),
     ("HR/Recruitment", 10), ("Finance/Banking", 15)]),
   ("Backend Development",
    [("IT/Software", 95), ("Backend Development", 100), ("Frontend Development", 60),
     ("AI/ML/Data Science", 80), ("DevOps/Cloud", 85), ("QA/Testing", 75),
     ("Finance/Accounting", 20), ("Healthcare", 15), ("Sales/Marketing", 10),
     ("HR/Recruitment", 10), ("Finance/Banking", 20)]),
   ("Frontend Development",
    [("IT/Software", 90), ("Backend Development", 60), ("Frontend Development", 100),
     ("AI/ML/Data Science", 40), ("DevOps/Cloud", 50), ("QA/Testing", 70),
     ("Finance/Accounting", 10), ("Healthcare", 10), ("Sales/Marketing", 15),
     ("HR/Recruitment", 10), ("Finance/Banking", 10)]),
   ("AI/ML/Data Science",
    [("IT/Software", 75), ("Backend Development", 80), ("Frontend Development", 40),
     ("AI/ML/Data Science", 100), ("DevOps/Cloud", 60), ("QA/Testing", 50),
     ("Finance/Accounting", 45), ("Healthcare", 50), ("Sales/Marketing", 20),
     ("HR/Recruitment", 10), ("Finance/Banking", 50)]),
   ("DevOps/Cloud",
    [("IT/Software", 85), ("Backend Development", 85), ("Frontend Development", 50),
     ("AI/ML/Data Science", 60), ("DevOps/Cloud", 100), ("QA/Testing", 70),
     ("Finance/Accounting", 25), ("Healthcare", 20), ("Sales/Marketing", 10),
     ("HR/Recruitment", 10), ("Finance/Banking", 25)]),
   ("QA/Testing",
    [("IT/Software", 80), ("Backend Development", 75), ("Frontend Development", 70),
     ("AI/ML/Data Science", 50), ("DevOps/Cloud", 70), ("QA/Testing", 100),
     ("Finance/Accounting", 20), ("Healthcare", 20), ("Sales/Marketing", 15),
     ("HR/Recruitment", 10), ("Finance/Banking", 20)]),
   ("Finance/Accounting",
    [("IT/Software", 20), ("Backend Development", 20), ("Frontend Development", 10),
     ("AI/ML/Data Science", 45), ("DevOps/Cloud", 25), ("QA/Testing", 20),
     ("Finance/Accounting", 100), ("Healthcare", 30), ("Sales/Marketing", 50),
     ("HR/Recruitment", 40), ("Finance/Banking", 85)]),
   ("Healthcare",
    [("IT/Software", 15), ("Backend Development", 15), ("Frontend Development", 10),
     ("AI/ML/Data Science", 50), ("DevOps/Cloud", 20), ("QA/Testing", 20),
     ("Finance/Accounting", 30), ("Healthcare", 100), ("Sales/Marketing", 25),
     ("HR/Recruitment", 20), ("Finance/Banking", 25)]),
   ("Sales/Marketing",
    [("IT/Software", 10), ("Backend Development", 10), ("Frontend Development", 15),
     ("AI/ML/Data Science", 20), ("DevOps/Cloud", 10), ("QA/Testing", 15),
     ("Finance/Accounting", 50), ("Healthcare", 25), ("Sales/Marketing", 100),
     ("HR/Recruitment", 70), ("Finance/Banking", 60)]),
   ("HR/Recruitment",
    [("IT/Software", 10), ("Backend Development", 10), ("Frontend Development", 10),
     ("AI/ML/Data Science", 10), ("DevOps/Cloud", 10), ("QA/Testing", 10),
     ("Finance/Accounting", 40), ("Healthcare", 20), ("Sales/Marketing", 70),
     ("HR/Recruitment", 100), ("Finance/Banking", 40)]),
   ("Finance/Banking",
    [("IT/Software", 15), ("Backend Development", 20), ("Frontend Development", 10),
     ("AI/ML/Data Science", 50), ("DevOps/Cloud", 25), ("QA/Testing", 20),
     ("Finance/Accounting", 85), ("Healthcare", 25), ("Sales/Marketing", 60),
     ("HR/Recruitment", 40), ("Finance/Banking", 100)])]

/-- Matrix lookup with the two `.get(..., default)` fallbacks of the source. -/
def matrixScore (a b : String) : ℚ :=
  ((alookup b ((alookup a DOMAIN_COMPATIBILITY_MATRIX).getD [])).getD 0)

/-- Unhashable embedded values (lists and dicts), which `dict.get` rejects. -/
def unhashable : PyVal → Bool
  | vlist _ => true
  | vdict _ => true
  | _ => false

/-- Result record of `get_domain_compatibility`. -/
structure DomainCompat where
  score : ℚ
  percentage : ℚ
  level : String
  resume_domain : PyVal
  jd_domain : PyVal
  details : String
deriving DecidableEq

/-- `get_domain_compatibility` from domain_classification.py (decorative
non-ASCII marks in the detail strings are omitted; no claim inspects them). -/
def get_domain_compatibility (resume_domain jd_domain : PyVal) :
    Except String DomainCompat :=
  if !truthy resume_domain || !truthy jd_domain then
    .ok
      { score := 0, percentage := 0, level := "Unknown"
        resume_domain := resume_domain, jd_domain := jd_domain
        details := "Could not determine domain(s)" }
  else if unhashable resume_domain || unhashable jd_domain then
    .error "TypeError: unhashable"
  else
    let score : ℚ :=
      match resume_domain, jd_domain with
      | vstr a, vstr b => matrixScore a b
      | _, _ => 0
    let level :=
      if 85 ≤ score then "Perfect"
      else if 60 ≤ score then "Good"
      else if 35 ≤ score then "Acceptable"
      else "Poor"
    let details :=
      if resume_domain = jd_domain then
        "Both from same domain (" ++ pyStr resume_domain ++ "). Excellent match!"
      else if level = "Perfect" then
        "Strong domain alignment: " ++ pyStr resume_domain ++ " to " ++ pyStr jd_domain
      else if level = "Good" then
        "Reasonable domain alignment: " ++ pyStr resume_domain ++ " to " ++
        pyStr jd_domain ++ ". Some skills are transferable."
      else if level = "Acceptable" then
        "Moderate domain shift: " ++ pyStr resume_domain ++ " to " ++
        pyStr jd_domain ++ ". Candidate may need upskilling."
      else
        "Significant domain change: " ++ pyStr resume_domain ++ " to " ++
        pyStr jd_domain ++ ". Major career pivot required."
    .ok
      { score := score, percentage := score, level := level
        resume_domain := resume_domain, jd_domain := jd_domain, details := details }

/-- `calculate_domain_adjustment_factor` from domain_classification.py. -/
def calculate_domain_adjustment_factor (domain_compatibility_score : ℚ) : ℚ :=
  if 85 ≤ domain_compatibility_score then 1
  else if 70 ≤ domain_compatibility_score then 9/10
  else if 60 ≤ domain_compatibility_score then 4/5
  else if 50 ≤ domain_compatibility_score then 13/20
  else if 35 ≤ domain_compatibility_score then 9/20
  else 1/4

-- ==================== overall scoring (matching_engine.py) ====================

/-- `get_assessment` from matching_engine.py: descending threshold scan over
`ASSESSMENT_MAP` (returns the text and the color). -/
def get_assessment (score : ℚ) : String × String :=
  if 90 ≤ score then ("🌟 Excellent Match", "green")
  else if 75 ≤ score then ("✅ Great Match", "green")
  else if 60 ≤ score then ("👍 Good Match", "blue")
  else if 40 ≤ score then ("⚠️ Moderate Match", "orange")
  else ("❌ Poor Match", "red")

/-- The scoring weight triple (`custom_weights` keys experience, education,
skills). -/
structure Weights where
  experience : ℚ
  education : ℚ
  skills : ℚ
deriving DecidableEq

/-- Output record of `calculate_match`.  The Python `criteriaAnalysis` dict is
assembled from the sub-result records kept whole here. -/
structure MatchOutput where
  resumeDomain : PyVal
  jdDomain : PyVal
  domainCompat : DomainCompat
  domainAdjustment : ℚ
  experienceMatch : ExpResult
  educationMatch : EduResult
  skillsMatch : SkillsResult
  sectionScores : ℤ × ℤ × ℤ
  rawOverallScore : ℚ
  overallScore : ℚ
  assessment : String × String
  gaps : List String
  recommendations : List String
  summary : String
deriving DecidableEq

/-- `calculate_match` from matching_engine.py. -/
def calculate_match (ratio : String → String → ℚ) (grp : String → Option String)
    (resume_data jd_data : PyVal) (custom_weights : Option Weights) :
    Except String MatchOutput :=
  let w : Weights :=
    match custom_weights with
    | none => ⟨35, 25, 40⟩
    | some cw =>
        if cw.experience + cw.education + cw.skills ≠ 100 then ⟨35, 25, 40⟩ else cw
  if !truthy resume_data || !truthy jd_data then .error "Missing resume or JD data"
  else do
    let resume_domain ← pyGet resume_data "domain" (vstr "Unknown")
    let jd_domain ← pyGet jd_data "domain" (vstr "Unknown")
    let domain_compat ← get_domain_compatibility resume_domain jd_domain
    let domain_score := domain_compat.score
    let domain_adjustment := calculate_domain_adjustment_factor domain_score
    let experience_result ← check_experience_match resume_data jd_data
    let education_result ← check_education_match resume_data jd_data
    let skills_result ← check_skills_match ratio grp resume_data jd_data
    let experience_normalized := ((experience_result.score : ℚ) / 35) * w.experience
    let education_normalized := ((education_result.score : ℚ) / 25) * w.education
    let skills_normalized := ((skills_result.score : ℚ) / 40) * w.skills
    let raw_overall_score :=
      min 100 (max 0 (experience_normalized + education_normalized + skills_normalized))
    let overall_score : ℚ :=
      if domain_score < 85 then ((pyTrunc (raw_overall_score * domain_adjustment) : ℤ) : ℚ)
      else raw_overall_score
    let assessment := get_assessment overall_score
    let matched_count : ℕ :=
      (if experience_result.met then 1 else 0) + (if education_result.met then 1 else 0) +
      (if skills_result.met then 1 else 0)
    let summary :=
      "Matches " ++ toString matched_count ++ "/3 criteria. " ++
      (if domain_score < 35 then
        "⚠️ Major domain shift (" ++ pyStr resume_domain ++ " to " ++
          pyStr jd_domain ++ "). "
      else if domain_score < 60 then
        "⚠️ Moderate domain change (" ++ pyStr resume_domain ++ " to " ++
          pyStr jd_domain ++ "). "
      else "") ++
      (if 75 ≤ overall_score then "Strong candidate for interview."
      else if 60 ≤ overall_score then "Good candidate to consider."
      else if 40 ≤ overall_score then "Moderate candidate with gaps."
      else "Significant improvement needed.")
    let gaps :=
      (if domain_score < 60 then
        ["Domain Shift: " ++ pyStr resume_domain ++ " to " ++ pyStr jd_domain ++
          " (" ++ pyNumStr domain_score ++ "% compatibility)"]
      else []) ++
      (if !experience_result.met then
        ["Experience: " ++ toString experience_result.percentage ++ "% match"] else []) ++
      (if !education_result.met then
        ["Education: " ++ toString education_result.percentage ++ "% match"] else []) ++
      (if !skills_result.met then
        ["Skills: " ++ toString skills_result.percentage ++ "% match"] else [])
    pure
      { resumeDomain := resume_domain
        jdDomain := jd_domain
        domainCompat := domain_compat
        domainAdjustment := domain_adjustment
        experienceMatch := experience_result
        educationMatch := education_result
        skillsMatch := skills_result
        sectionScores := (experience_result.score, education_result.score, skills_result.score)
        rawOverallScore := raw_overall_score
        overallScore := overall_score
        assessment := assessment
        gaps := gaps
        recommendations := [domain_compat.details, experience_result.details,
          education_result.details, skills_result.details]
        summary := summary }

-- ==================== JSON repair (json_parser.py) ====================

/-- Fix 1 of `fix_json_string`: quote-character normalization.  In the
repository file the two smart-quote replace calls are byte-identical no-ops
(`replace(QUOTE, QUOTE)`), so the pass replaces exactly the apostrophe and the
backtick by a double quote. -/
def fixQuotes (l : List Char) : List Char :=
  l.map fun c => if c = apch || c = btch then qch else c

/-- Fix 2 of `fix_json_string`: newline, carriage return and tab become
spaces. -/
def fixNewlines (l : List Char) : List Char :=
  l.map fun c =>
    if c = Char.ofNat 10 || c = Char.ofNat 13 || c = Char.ofNat 9 then ' ' else c

/-- Is this a closing delimiter (`}` or `]`)? -/
def isCloser (c : Char) : Bool :=
  c = cbch || c = ']'

/-- Fix 3 / repair pass: `re.sub(r",(\s*[}\]])", r"\1", s)` — drop a comma
standing (up to whitespace) before a closing delimiter; the replacement keeps
the whitespace and the delimiter, and scanning resumes after the delimiter.
The `fuel` argument only bounds the recursion depth (each step consumes at
least one character, so `l.length` is always enough fuel). -/
def dropTrailingCommaF : ℕ → List Char → List Char
  | 0, l => l
  | _ + 1, [] => []
  | f + 1, c :: rest =>
      if c = ',' then
        match rest.dropWhile isPySpace with
        | b :: r3 =>
            if isCloser b then rest.takeWhile isPySpace ++ b :: dropTrailingCommaF f r3
            else c :: dropTrailingCommaF f rest
        | [] => c :: dropTrailingCommaF f rest
      else c :: dropTrailingCommaF f rest

/-- The trailing-comma pass at adequate fuel. -/
def dropTrailingComma (l : List Char) : List Char :=
  dropTrailingCommaF l.length l

/-- Fix 4 / repair pass: `re.sub(r"\s+", " ", s)` — each maximal whitespace
run becomes one space. -/
def collapseWsF : ℕ → List Char → List Char
  | 0, l => l
  | _ + 1, [] => []
  | f + 1, c :: rest =>
      if isPySpace c then ' ' :: collapseWsF f (rest.dropWhile isPySpace)
      else c :: collapseWsF f rest

/-- The whitespace-collapsing pass at adequate fuel. -/
def collapseWs (l : List Char) : List Char :=
  collapseWsF l.length l

/-- Is the head of `l` a non-word character (or is `l` empty)?  This is the
right-hand `\b` test of a word-literal replacement. -/
def headNotWord : List Char → Bool
  | [] => true
  | c :: _ => !isWordChar c

/-- `re.sub(rf"\b{w}\b", t, s)` for a fixed nonempty word `w0 :: wt` made of
word characters: `prevW` says whether the character just before the current
position is a word character (so `\b` holds at the position exactly when
`prevW` is false). -/
def replWordGoF (w0 : Char) (wt t : List Char) : ℕ → Bool → List Char → List Char
  | 0, _, l => l
  | _ + 1, _, [] => []
  | f + 1, prevW, c :: rest =>
      if listStartsWith (w0 :: wt) (c :: rest) && !prevW &&
          headNotWord ((c :: rest).drop (wt.length + 1)) then
        t ++ replWordGoF w0 wt t f (isWordChar (wt.getLastD w0))
          ((c :: rest).drop (wt.length + 1))
      else c :: replWordGoF w0 wt t f (isWordChar c) rest

/-- Word-literal replacement, dispatching on the word being nonempty (all the
source words are). -/
def replWord (w t : List Char) (prevW : Bool) (l : List Char) : List Char :=
  match w with
  | [] => l
  | w0 :: wt => replWordGoF w0 wt t l.length prevW l

/-- The word `None` and its JSON spelling. -/
def noneW : List Char := ['N', 'o', 'n', 'e']

/-- The word `True` and its JSON spelling. -/
def trueW : List Char := ['T', 'r', 'u', 'e']

/-- The word `False` and its JSON spelling. -/
def falseW : List Char := ['F', 'a', 'l', 's', 'e']

/-- Fix 5 / repair pass: Python literals to JSON literals. -/
def fixLiterals (l : List Char) : List Char :=
  replWord falseW ['f', 'a', 'l', 's', 'e'] false
    (replWord trueW ['t', 'r', 'u', 'e'] false
      (replWord noneW ['n', 'u', 'l', 'l'] false l))

/-- Parse of `\s*([a-zA-Z_][a-zA-Z0-9_]*)\s*:` — the part of the unquoted-key
pattern after the opening `{` or `,`.  Returns `(sp1, word, sp2, rest)`. -/
def keyParse (l : List Char) : Option (List Char × List Char × List Char × List Char) :=
  match l.dropWhile isPySpace with
  | c :: tail =>
      if isKeyStart c then
        match (List.dropWhile isWordChar (c :: tail)).dropWhile isPySpace with
        | ':' :: r4 =>
            some (l.takeWhile isPySpace, (c :: tail).takeWhile isWordChar,
              (List.dropWhile isWordChar (c :: tail)).takeWhile isPySpace, r4)
        | _ => none
      else none
  | [] => none

theorem keyParse_some_length {l sp1 word sp2 r4}
    (h : keyParse l = some (sp1, word, sp2, r4)) : r4.length < l.length := by
  unfold keyParse at h
  split at h
  case _ c r1t heq =>
    by_cases hks : isKeyStart c = true
    rotate_left
    · rw [if_neg hks] at h
      simp at h
    rw [if_pos hks] at h
    · split at h
      case _ r4x heq2 =>
        have hr4 : r4 = r4x := by
          simp at h
          exact h.2.2.2.symm
        have hcw : isWordChar c = true := by
          unfold isKeyStart at hks
          unfold isWordChar
          rcases Bool.or_eq_true _ _ |>.mp hks with h5 | h5 <;> simp [h5]
        have e1 : (List.dropWhile isPySpace l).length ≤ l.length :=
          (List.dropWhile_sublist _).length_le
        have e2 : ((c :: r1t).dropWhile isWordChar).length ≤ r1t.length := by
          rw [List.dropWhile_cons_of_pos hcw]
          exact (List.dropWhile_sublist _).length_le
        have e3 : (((c :: r1t).dropWhile isWordChar).dropWhile isPySpace).length ≤
            ((c :: r1t).dropWhile isWordChar).length :=
          (List.dropWhile_sublist _).length_le
        rw [heq2] at e3
        rw [heq] at e1
        simp at e1 e3
        subst hr4
        omega
      case _ => simp at h
  case _ => simp at h

/-- Fix 6 of `fix_json_string`:
`re.sub(r"(\{|,)\s*([a-zA-Z_][a-zA-Z0-9_]*)\s*:", r"\1\"\2\":", s)` — quote an
unquoted key; the whitespace around the key is not captured and is dropped. -/
def quoteKeysF : ℕ → List Char → List Char
  | 0, l => l
  | _ + 1, [] => []
  | f + 1, c :: rest =>
      if c = obch || c = ',' then
        match keyParse rest with
        | some (_, word, _, r4) => c :: qch :: (word ++ qch :: ':' :: quoteKeysF f r4)
        | none => c :: quoteKeysF f rest
      else c :: quoteKeysF f rest

/-- The key-quoting pass of `fix_json_string` at adequate fuel. -/
def quoteKeys (l : List Char) : List Char :=
  quoteKeysF l.length l

/-- The repair variant of the unquoted-key pass
(`re.sub(r"([{,]\s*)([a-zA-Z_]\w*)(\s*:)", r"\1\"\2\"\3", s)` in
llm_extraction.py): all three groups are captured, so the whitespace is
kept. -/
def quoteKeysKeepWsF : ℕ → List Char → List Char
  | 0, l => l
  | _ + 1, [] => []
  | f + 1, c :: rest =>
      if c = obch || c = ',' then
        match keyParse rest with
        | some (sp1, word, sp2, r4) =>
            c :: (sp1 ++ qch :: word ++ qch :: sp2 ++ ':' :: quoteKeysKeepWsF f r4)
        | none => c :: quoteKeysKeepWsF f rest
      else c :: quoteKeysKeepWsF f rest

/-- The key-quoting pass of `repair_json_string` at adequate fuel. -/
def quoteKeysKeepWs (l : List Char) : List Char :=
  quoteKeysKeepWsF l.length l

/-- Fix 7 of `fix_json_string`: `re.sub(r"\\\"", r"\"", s)` — unescape escaped
double quotes. -/
def unescapeQuotes : List Char → List Char
  | [] => []
  | [c] => [c]
  | a :: b :: rest =>
      if a = bsch && b = qch then qch :: unescapeQuotes rest
      else a :: unescapeQuotes (b :: rest)

/-- Fix 8 of `fix_json_string`: keep characters with code ≥ 32 (and the
newline, carriage return and tab, which fix 2 has already rewritten). -/
def keepPrintable (l : List Char) : List Char :=
  l.filter fun c =>
    decide (32 ≤ c.toNat) || c = Char.ofNat 10 || c = Char.ofNat 13 || c = Char.ofNat 9

/-- `fix_json_string` from json_parser.py: the eight repair fixes in source
order. -/
def fix_json_string (l : List Char) : List Char :=
  keepPrintable (unescapeQuotes (quoteKeys (fixLiterals
    (collapseWs (dropTrailingComma (fixNewlines (fixQuotes l)))))))

-- ==================== JSON repair (llm_extraction.py) ====================

/-- Newlines and carriage returns to spaces (`repair_json_string` does not
touch tabs here). -/
def fixNewlinesNR (l : List Char) : List Char :=
  l.map fun c => if c = Char.ofNat 10 || c = Char.ofNat 13 then ' ' else c

/-- The literal pattern replaced by the third repair line of
`repair_json_string`.  In the source that line is
`json_str.replace(''', "'").replace(''', "'")`, which Python parses as a
single `replace` call whose pattern is the 15-character string
`, "'").replace(` and whose replacement is an apostrophe. -/
def oddPat : List Char :=
  [',', ' ', qch, apch, qch, ')', '.', 'r', 'e', 'p', 'l', 'a', 'c', 'e', '(']

/-- The odd literal replacement pass of `repair_json_string`. -/
def replaceOddLiteralF : ℕ → List Char → List Char
  | 0, l => l
  | _ + 1, [] => []
  | f + 1, c :: rest =>
      if listStartsWith oddPat (c :: rest) then
        apch :: replaceOddLiteralF f ((c :: rest).drop 15)
      else c :: replaceOddLiteralF f rest

/-- The odd literal replacement at adequate fuel. -/
def replaceOddLiteral (l : List Char) : List Char :=
  replaceOddLiteralF l.length l

/-- `re.sub(r"(\})\s*(\{)", r"\1,\2", s)` (and the bracket analogue): insert a
comma between a closing and an opening delimiter; the whitespace between them
is not captured and is dropped, and scanning resumes after the opener. -/
def insertMissingCommaF (cl op : Char) : ℕ → List Char → List Char
  | 0, l => l
  | _ + 1, [] => []
  | f + 1, c :: rest =>
      if c = cl then
        match rest.dropWhile isPySpace with
        | d :: r2 =>
            if d = op then c :: ',' :: d :: insertMissingCommaF cl op f r2
            else c :: insertMissingCommaF cl op f rest
        | [] => c :: insertMissingCommaF cl op f rest
      else c :: insertMissingCommaF cl op f rest

/-- The missing-comma pass at adequate fuel. -/
def insertMissingComma (cl op : Char) (l : List Char) : List Char :=
  insertMissingCommaF cl op l.length l

/-- All passes of `repair_json_string` before the bracket-closing step (the
smart-quote replace line is a byte-identical no-op in the source file). -/
def repairMid (l : List Char) : List Char :=
  insertMissingComma ']' '[' (insertMissingComma cbch obch
    (quoteKeysKeepWs (fixLiterals
      (dropTrailingComma (replaceOddLiteral (collapseWs (fixNewlinesNR l)))))))

/-- `repair_json_string` after the bracket-closing step: append exactly the
missing closers, braces first, both counts taken on the pre-append string. -/
def repairCore (l : List Char) : List Char :=
  let m := repairMid l
  m ++ List.replicate (m.count obch - m.count cbch) cbch ++
    List.replicate (m.count '[' - m.count ']') ']'

/-- `repair_json_string` from llm_extraction.py (`None` embeds the
`if not json_str: return None` early exit). -/
def repair_json_string (l : List Char) : Option (List Char) :=
  if l.isEmpty then none else some (repairCore l)

-- ==================== validation (json_parser.py) ====================

/-- `int(float(str(v).replace(",", "")))` as used by `validate_data_types`
on numeric fields.  The inner `except` catches only `(ValueError, TypeError,
AttributeError)`: a failed float() parse or `int(nan)` falls back to 0, but
when float() returns an infinity — the strings `"inf"`/`"infinity"` or a
literal beyond the double range — `int()` raises `OverflowError`, which
escapes the inner handler.  For embedded numbers the string round trip is
exact in range, so they are truncated directly, with the same overflow at
`int(float(str(...)))` past the double range. -/
def coerceIntField : PyVal → Except String PyVal
  | vnum q =>
      if ovfThreshold ≤ q ∨ q ≤ 0 - ovfThreshold then .error "OverflowError: int"
      else .ok (vnum (pyTrunc q))
  | v =>
      match parsePyFloat (String.mk ((pyStr v).data.filter (fun c => c ≠ ','))) with
      | some (.fin q) => .ok (vnum (pyTrunc q))
      | some (.inf _) => .error "OverflowError: int"
      | some .nan => .ok (vnum 0)
      | none => .ok (vnum 0)

/-- The skills-normalization loop of `validate_data_types`: dict entries keep
their full dict but are dropped when `name` is absent or falsy; bare strings
become `{name: s, proficiency: "unknown"}`; anything else is dropped. -/
def normalizeSkillsList (l : List PyVal) : List PyVal :=
  l.filterMap fun skill =>
    match skill with
    | vdict d =>
        match dlookup "name" d with
        | some nv => if truthy nv then some (vdict d) else none
        | none => none
    | vstr s => some (vdict [("name", vstr s), ("proficiency", vstr "unknown")])
    | _ => none

/-- `[str(s) for s in l if s]` (requiredSkills / preferredSkills coercion). -/
def strListCoerce (l : List PyVal) : List PyVal :=
  l.filterMap fun s => if truthy s then some (vstr (pyStr s)) else none

/-- Numeric-field coercion step of `validate_data_types` (`if key in data:
data[key] = int(float(...))`).  An escaping `OverflowError` is signalled to
the caller before the assignment, so the dict is unchanged at that point. -/
def vdtStepNum (key : String) (d : List (String × PyVal)) :
    Except String (List (String × PyVal)) :=
  match dlookup key d with
  | some v =>
      match coerceIntField v with
      | .ok n => .ok (dset key n d)
      | .error e => .error e
  | none => .ok d

/-- Skills step of `validate_data_types`: a present non-list is reset to `[]`,
a present list is normalized entry by entry. -/
def vdtStepSkills (d : List (String × PyVal)) : List (String × PyVal) :=
  match dlookup "skills" d with
  | some (vlist l) => dset "skills" (vlist (normalizeSkillsList l)) d
  | some _ => dset "skills" (vlist []) d
  | none => d

/-- List-field guard step of `validate_data_types` (education,
experienceDetails): only a present non-list is overwritten with `[]`. -/
def vdtStepListField (key : String) (d : List (String × PyVal)) :
    List (String × PyVal) :=
  match dlookup key d with
  | some (vlist _) => d
  | some _ => dset key (vlist []) d
  | none => d

/-- String-list coercion step (requiredSkills, preferredSkills): always
written, `[]` when absent or non-list. -/
def vdtStepStrList (key : String) (d : List (String × PyVal)) :
    List (String × PyVal) :=
  match dlookup key d with
  | some (vlist l) => dset key (vlist (strListCoerce l)) d
  | some _ => dset key (vlist []) d
  | none => dset key (vlist []) d

/-- `validate_data_types` from json_parser.py, the source steps composed in
order.  Python mutates the `data` dict in place and returns the same object;
the embedding returns the post-call state of that object, so the input object
after the call holds exactly the returned entries.  The whole body sits in a
`try ... except Exception: pass`: when the numeric step (the first step of
each branch) raises `OverflowError`, the remaining coercions are skipped and
the dict — unchanged, since the failing assignment was never made — is
returned as-is. -/
def validate_data_types (data : List (String × PyVal)) (doc_type : String) :
    List (String × PyVal) :=
  if doc_type = "Resume" then
    match vdtStepNum "totalYearsExperience" data with
    | .ok d1 => vdtStepListField "experienceDetails" (vdtStepListField "education"
        (vdtStepSkills d1))
    | .error _ => data
  else
    match vdtStepNum "minExperienceYears" data with
    | .ok d1 => vdtStepStrList "preferredSkills" (vdtStepStrList "requiredSkills" d1)
    | .error _ => data

/-- The skills list of a validated record (empty when absent or not a list). -/
def skillsListOf (d : List (String × PyVal)) : List PyVal :=
  match dlookup "skills" d with
  | some (vlist l) => l
  | _ => []

/-- The level of a compatibility result (error marker on the raising path). -/
def compatLevel (e : Except String DomainCompat) : String :=
  match e with
  | .ok r => r.level
  | .error _ => "error"

/-- The score of a compatibility result (-1 on the raising path). -/
def compatScore (e : Except String DomainCompat) : ℚ :=
  match e with
  | .ok r => r.score
  | .error _ => -1

-- ==================== claim theorems ====================

/-- C10: whenever at least one of the two skill strings normalizes to the
empty string, `find_skill_match` returns no-match with confidence 0 and the
strategy label `"invalid"`, for every similarity function, analogy-group map
and threshold — so no exact/analogy/fuzzy/substring strategy is consulted. -/
theorem c10_invalid_skill (ratio : String → String → ℚ) (grp : String → Option String)
    (thr : ℚ) (c r : String)
    (h : normalize_skill c = "" ∨ normalize_skill r = "") :
    find_skill_match ratio grp thr c r = (false, "invalid", 0) := by
  unfold find_skill_match
  rcases h with h | h <;> simp [h]

theorem c10_invalid_skill_witness :
    (normalize_skill "@#$" = "" ∨ normalize_skill "python" = "") ∧
    find_skill_match ratioZero grpNone (7/10) "@#$" "python" = (false, "invalid", 0) :=
  ⟨Or.inl (by decide),
    c10_invalid_skill ratioZero grpNone (7/10) "@#$" "python" (Or.inl (by decide))⟩

/-- C4: for nonnegative (finite) candidate and required years the experience
check returns a result, with full score 35 / 100% / met when the requirement
is zero or is covered, and otherwise not met with
`percentage = floor(100 * c / r)` and `score = max 1 (floor (35 * c / r))`. -/
theorem c4_experience (c r : ℚ) (hc : 0 ≤ c) (hr : 0 ≤ r) :
    ∃ e, check_experience_match (vdict [("totalYearsExperience", vnum c)])
        (vdict [("minExperienceYears", vnum r)]) = .ok e ∧
      ((r = 0 ∨ r ≤ c) → e.met = true ∧ e.score = 35 ∧ e.percentage = 100) ∧
      (c < r → e.met = false ∧ e.percentage = ⌊100 * c / r⌋ ∧
        e.score = max 1 ⌊35 * c / r⌋) := by
  have hyears : expYears (vdict [("totalYearsExperience", vnum c)])
      (vdict [("minExperienceYears", vnum r)]) = (.fin c, .fin r) := by
    unfold expYears pyGet pyOrZero pyFloat
    by_cases hc0 : c = 0 <;> by_cases hr0 : r = 0 <;>
      simp [dlookup, truthy, hc0, hr0, Except.bind]
  unfold check_experience_match
  rw [hyears]
  refine ⟨_, rfl, ?_, ?_⟩
  · rintro (h0 | hle)
    · subst h0
      refine ⟨?_, ?_, ?_⟩ <;> simp [hc]
    · have hmet : decide (r ≤ c) = true := by simp [hle]
      by_cases h0 : r = 0
      · subst h0
        refine ⟨?_, ?_, ?_⟩ <;> simp [hc]
      · refine ⟨?_, ?_, ?_⟩ <;> simp [h0, hle]
  · intro hlt
    have h0 : ¬r = 0 := by
      intro h
      rw [h] at hlt
      exact absurd (lt_of_le_of_lt hc hlt) (lt_irrefl 0)
    have hnle : ¬r ≤ c := not_le.mpr hlt
    have hrpos : 0 < r := lt_of_le_of_ne hr (Ne.symm h0)
    have hratio0 : 0 ≤ c / r := div_nonneg hc (le_of_lt hrpos)
    have hper : pyTrunc (c / r * 100) = ⌊100 * c / r⌋ := by
      rw [pyTrunc_nonneg_eq_floor (by positivity)]
      ring_nf
    have hsc : pyTrunc (c / r * 35) = ⌊35 * c / r⌋ := by
      rw [pyTrunc_nonneg_eq_floor (by positivity)]
      ring_nf
    have hlt100 : ⌊100 * c / r⌋ < 100 := by
      rw [Int.floor_lt]
      push_cast
      rw [div_lt_iff hrpos]
      nlinarith
    refine ⟨?_, ?_, ?_⟩ <;> simp [h0, hnle, hrpos, hper, hsc] <;> omega

theorem c4_experience_witness :
    (0 : ℚ) ≤ 1 ∧ (0 : ℚ) ≤ 5 ∧
    ∃ e, check_experience_match (vdict [("totalYearsExperience", vnum 1)])
        (vdict [("minExperienceYears", vnum 5)]) = .ok e ∧
      e.met = false ∧ e.percentage = 20 ∧ e.score = 7 := by
  obtain ⟨e, he, _, h2⟩ := c4_experience 1 5 (by norm_num) (by norm_num)
  have h := h2 (by norm_num)
  refine ⟨by norm_num, by norm_num, e, he, h.1, ?_, ?_⟩
  · rw [h.2.1]
    decide
  · rw [h.2.2]
    decide

-- ==================== C6: repair pass delimiter counts ====================

theorem mem_takeWhile_pred {p : Char → Bool} {l : List Char} {x : Char}
    (h : x ∈ l.takeWhile p) : p x = true := by
  induction l with
  | nil => simp [List.takeWhile] at h
  | cons c t ih =>
      by_cases hc : p c
      · rw [List.takeWhile_cons_of_pos hc] at h
        rcases List.mem_cons.mp h with rfl | h2
        · exact hc
        · exact ih h2
      · rw [List.takeWhile_cons_of_neg (by simp [hc])] at h
        simp at h

theorem count_takeWhile_zero {p : Char → Bool} {d : Char} (hd : p d = false)
    (l : List Char) : (l.takeWhile p).count d = 0 := by
  rw [List.count_eq_zero]
  intro hmem
  rw [mem_takeWhile_pred hmem] at hd
  cases hd

theorem count_split_while (p : Char → Bool) (d : Char) (l : List Char) :
    l.count d = (l.takeWhile p).count d + (l.dropWhile p).count d := by
  rw [← List.count_append, List.takeWhile_append_dropWhile]

theorem lsw_take {p l : List Char} (h : listStartsWith p l = true) :
    l.take p.length = p := by
  induction p generalizing l with
  | nil => rfl
  | cons a as ih =>
      cases l with
      | nil => simp [listStartsWith] at h
      | cons c cs =>
          simp only [listStartsWith, Bool.and_eq_true, decide_eq_true_eq] at h
          simp only [List.length_cons, List.take_succ_cons]
          rw [ih h.2, h.1]

theorem count_map_eq {f : Char → Char} {d : Char} (hf : ∀ c, f c = d ↔ c = d)
    (l : List Char) : (l.map f).count d = l.count d := by
  induction l with
  | nil => rfl
  | cons c t ih => simp [List.count_cons, ih, hf c]

theorem cnt_fixNewlinesNR {d : Char} (hsp : isPySpace d = false) (l : List Char) :
    (fixNewlinesNR l).count d = l.count d := by
  apply count_map_eq
  intro c
  have hdsp : ¬(' ' : Char) = d := by
    intro he
    rw [← he] at hsp
    revert hsp
    decide
  by_cases hc : (c = Char.ofNat 10 || c = Char.ofNat 13) = true
  · rw [if_pos hc]
    constructor
    · intro he
      exact absurd he hdsp
    · intro he
      rcases Bool.or_eq_true _ _ |>.mp hc with h | h <;>
        rw [decide_eq_true_eq] at h <;> rw [← he, h] at hsp <;>
        exact absurd hsp (by decide)
  · rw [if_neg hc]

theorem cnt_collapseWsF {d : Char} (hsp : isPySpace d = false) :
    ∀ (fuel : ℕ) (l : List Char), (collapseWsF fuel l).count d = l.count d := by
  intro fuel
  induction fuel with
  | zero => intro l; rfl
  | succ f ih =>
      intro l
      cases l with
      | nil => rfl
      | cons c rest =>
          by_cases hc : isPySpace c = true
          · rw [show collapseWsF (f + 1) (c :: rest) =
              ' ' :: collapseWsF f (rest.dropWhile isPySpace) by simp [collapseWsF, hc]]
            have hcd : ¬c = d := by
              intro he
              rw [he, hsp] at hc
              cases hc
            have hsd : ¬(' ' : Char) = d := by
              intro he
              rw [← he] at hsp
              revert hsp
              decide
            rw [List.count_cons, List.count_cons, ih,
              count_split_while isPySpace d rest, count_takeWhile_zero hsp]
            simp [hcd, hsd]
          · rw [show collapseWsF (f + 1) (c :: rest) = c :: collapseWsF f rest by
              simp [collapseWsF, hc]]
            rw [List.count_cons, List.count_cons, ih]

theorem cnt_replaceOddLiteralF {d : Char} (hodd : oddPat.count d = 0)
    (hap : ¬apch = d) :
    ∀ (fuel : ℕ) (l : List Char), (replaceOddLiteralF fuel l).count d = l.count d := by
  intro fuel
  induction fuel with
  | zero => intro l; rfl
  | succ f ih =>
      intro l
      cases l with
      | nil => rfl
      | cons c rest =>
          by_cases hm : listStartsWith oddPat (c :: rest) = true
          · rw [show replaceOddLiteralF (f + 1) (c :: rest) =
              apch :: replaceOddLiteralF f ((c :: rest).drop 15) by
                simp [replaceOddLiteralF, hm]]
            rw [List.count_cons, ih]
            have hsplit : (c :: rest).count d =
                ((c :: rest).take 15).count d + ((c :: rest).drop 15).count d := by
              rw [← List.count_append, List.take_append_drop]
            have htake : (c :: rest).take 15 = oddPat := lsw_take hm
            rw [hsplit, htake, hodd]
            simp [hap]
          · rw [show replaceOddLiteralF (f + 1) (c :: rest) =
              c :: replaceOddLiteralF f rest by simp [replaceOddLiteralF, hm]]
            rw [List.count_cons, List.count_cons, ih]

theorem cnt_dropTrailingCommaF {d : Char} (hsp : isPySpace d = false)
    (hcm : ¬(',' : Char) = d) :
    ∀ (fuel : ℕ) (l : List Char), (dropTrailingCommaF fuel l).count d = l.count d := by
  intro fuel
  induction fuel with
  | zero => intro l; rfl
  | succ f ih =>
      intro l
      cases l with
      | nil => rfl
      | cons c rest =>
          by_cases hc : c = ','
          · subst hc
            rcases hdw : rest.dropWhile isPySpace with _ | ⟨b, r3⟩
            · rw [show dropTrailingCommaF (f + 1) (',' :: rest) =
                ',' :: dropTrailingCommaF f rest by simp [dropTrailingCommaF, hdw]]
              rw [List.count_cons, List.count_cons, ih]
            · by_cases hb : isCloser b = true
              · rw [show dropTrailingCommaF (f + 1) (',' :: rest) =
                  rest.takeWhile isPySpace ++ b :: dropTrailingCommaF f r3 by
                    simp [dropTrailingCommaF, hdw, hb]]
                rw [List.count_append, List.count_cons, ih,
                  List.count_cons, count_split_while isPySpace d rest, hdw,
                  List.count_cons]
                simp [hcm]
              · rw [show dropTrailingCommaF (f + 1) (',' :: rest) =
                  ',' :: dropTrailingCommaF f rest by simp [dropTrailingCommaF, hdw, hb]]
                rw [List.count_cons, List.count_cons, ih]
          · rw [show dropTrailingCommaF (f + 1) (c :: rest) =
              c :: dropTrailingCommaF f rest by simp [dropTrailingCommaF, hc]]
            rw [List.count_cons, List.count_cons, ih]

theorem cnt_replWordGoF {d w0 : Char} {wt t : List Char}
    (hw : ((w0 :: wt).count d) = 0) (ht : t.count d = 0) :
    ∀ (fuel : ℕ) (prevW : Bool) (l : List Char),
      (replWordGoF w0 wt t fuel prevW l).count d = l.count d := by
  intro fuel
  induction fuel with
  | zero => intro prevW l; rfl
  | succ f ih =>
      intro prevW l
      cases l with
      | nil => rfl
      | cons c rest =>
          rw [show replWordGoF w0 wt t (f + 1) prevW (c :: rest) =
            if listStartsWith (w0 :: wt) (c :: rest) && !prevW &&
                headNotWord ((c :: rest).drop (wt.length + 1)) then
              t ++ replWordGoF w0 wt t f (isWordChar (wt.getLastD w0))
                ((c :: rest).drop (wt.length + 1))
            else c :: replWordGoF w0 wt t f (isWordChar c) rest from rfl]
          by_cases hm : (listStartsWith (w0 :: wt) (c :: rest) && !prevW &&
              headNotWord ((c :: rest).drop (wt.length + 1))) = true
          · rw [if_pos hm]
            have hm1 : listStartsWith (w0 :: wt) (c :: rest) = true := by
              simp only [Bool.and_eq_true] at hm
              exact hm.1.1
            have hsplit : (c :: rest).count d =
                ((c :: rest).take (wt.length + 1)).count d +
                ((c :: rest).drop (wt.length + 1)).count d := by
              rw [← List.count_append, List.take_append_drop]
            have htake : (c :: rest).take (wt.length + 1) = w0 :: wt := by
              have h2 := lsw_take hm1
              simpa using h2
            rw [List.count_append, ih, hsplit, htake, hw, ht]
          · rw [if_neg hm]
            rw [List.count_cons, List.count_cons, ih]

theorem keyParse_decomp {l sp1 word sp2 r4 : List Char}
    (h : keyParse l = some (sp1, word, sp2, r4)) :
    l = sp1 ++ word ++ sp2 ++ ':' :: r4 ∧
    (∀ c ∈ sp1, isPySpace c = true) ∧ (∀ c ∈ sp2, isPySpace c = true) := by
  unfold keyParse at h
  split at h
  case _ c r1t heq =>
    by_cases hks : isKeyStart c = true
    rotate_left
    · rw [if_neg hks] at h
      simp at h
    rw [if_pos hks] at h
    · split at h
      case _ r4x heq2 =>
        simp only [Option.some.injEq, Prod.mk.injEq] at h
        obtain ⟨hsp1, hword, hsp2, hr4⟩ := h
        subst hsp1
        subst hword
        subst hsp2
        subst hr4
        refine ⟨?_, ?_, ?_⟩
        · have e3 : (List.dropWhile isWordChar (c :: r1t)) =
              (List.dropWhile isWordChar (c :: r1t)).takeWhile isPySpace ++
              (':' :: r4x) := by
            conv_lhs => rw [← List.takeWhile_append_dropWhile (p := isPySpace)
              (l := List.dropWhile isWordChar (c :: r1t))]
            rw [heq2]
          have e1 : (c :: r1t : List Char) =
              (c :: r1t).takeWhile isWordChar ++
              ((List.dropWhile isWordChar (c :: r1t)).takeWhile isPySpace ++
                (':' :: r4x)) := by
            conv_lhs => rw [← List.takeWhile_append_dropWhile (p := isWordChar)
              (l := c :: r1t), e3]
          conv_lhs => rw [← List.takeWhile_append_dropWhile (p := isPySpace) (l := l),
            heq, e1]
          simp [List.append_assoc]
        · intro x hx
          exact mem_takeWhile_pred hx
        · intro x hx
          exact mem_takeWhile_pred hx
      case _ => simp at h
  case _ => simp at h

theorem cnt_quoteKeysKeepWsF {d : Char} (hq : ¬qch = d) :
    ∀ (fuel : ℕ) (l : List Char), (quoteKeysKeepWsF fuel l).count d = l.count d := by
  intro fuel
  induction fuel with
  | zero => intro l; rfl
  | succ f ih =>
      intro l
      cases l with
      | nil => rfl
      | cons c rest =>
          by_cases hc : (c = obch || c = ',') = true
          · rcases hkp : keyParse rest with _ | ⟨sp1, word, sp2, r4⟩
            · rw [show quoteKeysKeepWsF (f + 1) (c :: rest) =
                c :: quoteKeysKeepWsF f rest by simp [quoteKeysKeepWsF, hc, hkp]]
              rw [List.count_cons, List.count_cons, ih]
            · rw [show quoteKeysKeepWsF (f + 1) (c :: rest) =
                c :: (sp1 ++ qch :: word ++ qch :: sp2 ++ ':' :: quoteKeysKeepWsF f r4) by
                  simp [quoteKeysKeepWsF, hc, hkp]]
              obtain ⟨hdecomp, _, _⟩ := keyParse_decomp hkp
              rw [List.count_cons]
              conv_rhs => rw [List.count_cons, hdecomp]
              simp only [List.count_append, List.count_cons, ih, hq]
              simp [hq]
          · rw [show quoteKeysKeepWsF (f + 1) (c :: rest) =
              c :: quoteKeysKeepWsF f rest by simp [quoteKeysKeepWsF, hc]]
            rw [List.count_cons, List.count_cons, ih]

theorem cnt_insertMissingCommaF {d cl op : Char} (hsp : isPySpace d = false)
    (hcm : ¬(',' : Char) = d) :
    ∀ (fuel : ℕ) (l : List Char), (insertMissingCommaF cl op fuel l).count d = l.count d := by
  intro fuel
  induction fuel with
  | zero => intro l; rfl
  | succ f ih =>
      intro l
      cases l with
      | nil => rfl
      | cons c rest =>
          by_cases hc : c = cl
          · subst hc
            rcases hdw : rest.dropWhile isPySpace with _ | ⟨b, r2⟩
            · rw [show insertMissingCommaF c op (f + 1) (c :: rest) =
                c :: insertMissingCommaF c op f rest by
                  simp [insertMissingCommaF, hdw]]
              rw [List.count_cons, List.count_cons, ih]
            · by_cases hb : b = op
              · subst hb
                rw [show insertMissingCommaF c b (f + 1) (c :: rest) =
                  c :: ',' :: b :: insertMissingCommaF c b f r2 by
                    simp [insertMissingCommaF, hdw]]
                rw [List.count_cons, List.count_cons, List.count_cons, ih,
                  List.count_cons, count_split_while isPySpace d rest, hdw,
                  count_takeWhile_zero hsp, List.count_cons]
                simp [hcm]
              · rw [show insertMissingCommaF c op (f + 1) (c :: rest) =
                  c :: insertMissingCommaF c op f rest by
                    simp [insertMissingCommaF, hdw, hb]]
                rw [List.count_cons, List.count_cons, ih]
          · rw [show insertMissingCommaF cl op (f + 1) (c :: rest) =
              c :: insertMissingCommaF cl op f rest by simp [insertMissingCommaF, hc]]
            rw [List.count_cons, List.count_cons, ih]

theorem cnt_replWord {d : Char} {w t : List Char} (hw : w.count d = 0)
    (ht : t.count d = 0) (prevW : Bool) (l : List Char) :
    (replWord w t prevW l).count d = l.count d := by
  cases w with
  | nil => rfl
  | cons w0 wt => exact cnt_replWordGoF hw ht _ _ _

theorem cnt_collapseWs {d : Char} (hsp : isPySpace d = false) (l : List Char) :
    (collapseWs l).count d = l.count d := cnt_collapseWsF hsp _ _

theorem cnt_dropTrailingComma {d : Char} (hsp : isPySpace d = false)
    (hcm : ¬(',' : Char) = d) (l : List Char) :
    (dropTrailingComma l).count d = l.count d := cnt_dropTrailingCommaF hsp hcm _ _

theorem cnt_replaceOddLiteral {d : Char} (hodd : oddPat.count d = 0)
    (hap : ¬apch = d) (l : List Char) :
    (replaceOddLiteral l).count d = l.count d := cnt_replaceOddLiteralF hodd hap _ _

theorem cnt_quoteKeysKeepWs {d : Char} (hq : ¬qch = d) (l : List Char) :
    (quoteKeysKeepWs l).count d = l.count d := cnt_quoteKeysKeepWsF hq _ _

theorem cnt_insertMissingComma {d cl op : Char} (hsp : isPySpace d = false)
    (hcm : ¬(',' : Char) = d) (l : List Char) :
    (insertMissingComma cl op l).count d = l.count d :=
  cnt_insertMissingCommaF hsp hcm _ _

/-- A delimiter character for the bracket-closing theorem. -/
def isDelim (d : Char) : Prop :=
  d = obch ∨ d = cbch ∨ d = '[' ∨ d = ']'

/-- All repair passes before the closing step preserve every delimiter
count. -/
theorem cnt_repairMid {d : Char} (hd : isDelim d) (l : List Char) :
    (repairMid l).count d = l.count d := by
  have hsp : isPySpace d = false := by
    rcases hd with rfl | rfl | rfl | rfl <;> decide
  have hcm : ¬(',' : Char) = d := by
    rcases hd with rfl | rfl | rfl | rfl <;> decide
  have hq : ¬qch = d := by
    rcases hd with rfl | rfl | rfl | rfl <;> decide
  have hap : ¬apch = d := by
    rcases hd with rfl | rfl | rfl | rfl <;> decide
  have hodd : oddPat.count d = 0 := by
    rcases hd with rfl | rfl | rfl | rfl <;> decide
  have hnone : (noneW.count d = 0) ∧ (['n', 'u', 'l', 'l'] : List Char).count d = 0 := by
    rcases hd with rfl | rfl | rfl | rfl <;> exact ⟨by decide, by decide⟩
  have htrue : (trueW.count d = 0) ∧ (['t', 'r', 'u', 'e'] : List Char).count d = 0 := by
    rcases hd with rfl | rfl | rfl | rfl <;> exact ⟨by decide, by decide⟩
  have hfalse : (falseW.count d = 0) ∧ (['f', 'a', 'l', 's', 'e'] : List Char).count d = 0 := by
    rcases hd with rfl | rfl | rfl | rfl <;> exact ⟨by decide, by decide⟩
  unfold repairMid fixLiterals
  rw [cnt_insertMissingComma hsp hcm, cnt_insertMissingComma hsp hcm,
    cnt_quoteKeysKeepWs hq, cnt_replWord hfalse.1 hfalse.2,
    cnt_replWord htrue.1 htrue.2, cnt_replWord hnone.1 hnone.2,
    cnt_dropTrailingComma hsp hcm, cnt_replaceOddLiteral hodd hap,
    cnt_collapseWs hsp, cnt_fixNewlinesNR hsp]

/-- C6: `repair_json_string` never returns `None` on nonempty input, appends
exactly the missing number of closing braces and brackets (computed on the
pre-append string, whose delimiter counts equal the input's), and appends
closing delimiters only — the opening-delimiter counts of the result equal
those of the input, while each closing count becomes the max of the two
sides, so a payload with an excess of closers keeps that excess. -/
theorem c6_repair_closers (l : List Char) (h : l ≠ []) :
    repair_json_string l = some (repairCore l) ∧
    (repairCore l).count obch = l.count obch ∧
    (repairCore l).count '[' = l.count '[' ∧
    (repairCore l).count cbch = max (l.count cbch) (l.count obch) ∧
    (repairCore l).count ']' = max (l.count ']') (l.count '[') := by
  have hne : l.isEmpty = false := by
    cases l with
    | nil => exact absurd rfl h
    | cons c t => rfl
  have hob := cnt_repairMid (d := obch) (Or.inl rfl) l
  have hcb := cnt_repairMid (d := cbch) (Or.inr (Or.inl rfl)) l
  have hosq := cnt_repairMid (d := '[') (Or.inr (Or.inr (Or.inl rfl))) l
  have hcsq := cnt_repairMid (d := ']') (Or.inr (Or.inr (Or.inr rfl))) l
  refine ⟨by simp [repair_json_string, hne], ?_, ?_, ?_, ?_⟩ <;>
    unfold repairCore <;>
    simp only [List.count_append, List.count_replicate, hob, hcb, hosq, hcsq] <;>
    simp only [show (cbch == obch) = false by decide, show ((']' : Char) == obch) = false by decide,
      show (cbch == '[') = false by decide, show ((']' : Char) == '[') = false by decide,
      show (cbch == cbch) = true by decide, show ((']' : Char) == cbch) = false by decide,
      show (cbch == ']') = false by decide, show ((']' : Char) == ']') = true by decide] <;>
    simp <;> omega

theorem c6_repair_closers_witness :
    (String.toList "key: 1" ≠ []) ∧
    (repair_json_string (String.toList "key: 1") =
      some (repairCore (String.toList "key: 1")) ∧
    (repairCore (String.toList "key: 1")).count obch = (String.toList "key: 1").count obch ∧
    (repairCore (String.toList "key: 1")).count '[' = (String.toList "key: 1").count '[' ∧
    (repairCore (String.toList "key: 1")).count cbch =
      max ((String.toList "key: 1").count cbch) ((String.toList "key: 1").count obch) ∧
    (repairCore (String.toList "key: 1")).count ']' =
      max ((String.toList "key: 1").count ']') ((String.toList "key: 1").count '[')) :=
  ⟨by decide, c6_repair_closers (String.toList "key: 1") (by decide)⟩

/-- C5 counterexample: the claim says an unknown domain yields level
`"Unknown"`, but `get_domain_compatibility` classifies the domain name
`"Unknown"` (the default for undetected domains) as level `"Poor"` with
score 0, because only falsy (absent/empty) domains take the Unknown branch. -/
theorem c5_unknown_level_counterexample :
    compatLevel (get_domain_compatibility (vstr "Unknown") (vstr "IT/Software")) = "Poor" ∧
    compatScore (get_domain_compatibility (vstr "Unknown") (vstr "IT/Software")) = 0 ∧
    "Poor" ≠ "Unknown" := by
  refine ⟨by decide, by decide, by decide⟩

/-- C5 (amended): for every pair of domain-name strings the lookup never
raises; an absent (empty) domain on either side gives level `"Unknown"` and
score 0; otherwise the score is the matrix entry — 0 whenever the pair is
missing from the matrix (including the name "Unknown") — and the level is
determined by the ≥85/≥60/≥35 thresholds (so a missing pair gets "Poor",
not "Unknown"). -/
theorem c5_domain_compatibility (a b : String) :
    (get_domain_compatibility (vstr a) (vstr b)).isOk = true ∧
    ((a = "" ∨ b = "") →
      compatLevel (get_domain_compatibility (vstr a) (vstr b)) = "Unknown" ∧
      compatScore (get_domain_compatibility (vstr a) (vstr b)) = 0) ∧
    (a ≠ "" → b ≠ "" →
      compatScore (get_domain_compatibility (vstr a) (vstr b)) = matrixScore a b ∧
      (alookup b ((alookup a DOMAIN_COMPATIBILITY_MATRIX).getD []) = none →
        compatScore (get_domain_compatibility (vstr a) (vstr b)) = 0) ∧
      compatLevel (get_domain_compatibility (vstr a) (vstr b)) =
        (if 85 ≤ matrixScore a b then "Perfect"
         else if 60 ≤ matrixScore a b then "Good"
         else if 35 ≤ matrixScore a b then "Acceptable"
         else "Poor")) := by
  refine ⟨?_, ?_, ?_⟩
  · by_cases ha : a = "" <;> by_cases hb : b = "" <;>
      simp [get_domain_compatibility, truthy, ha, hb, unhashable,
        Except.isOk, Except.toBool]
  · rintro (h | h) <;>
      simp [get_domain_compatibility, truthy, h, compatLevel, compatScore]
  · intro ha hb
    refine ⟨?_, ?_, ?_⟩
    · simp [get_domain_compatibility, truthy, ha, hb, unhashable, compatScore]
    · intro hmiss
      simp [get_domain_compatibility, truthy, ha, hb, unhashable, compatScore,
        matrixScore, hmiss]
    · simp only [get_domain_compatibility, truthy, unhashable]
      simp [ha, hb, compatLevel]

deriving instance DecidableEq for Except

/-- Destructuring a successful `Except` bind. -/
theorem exc_bind_ok {ε α β : Type} {x : Except ε α} {f : α → Except ε β} {b : β}
    (h : x >>= f = .ok b) : ∃ a, x = .ok a ∧ f a = .ok b := by
  cases x with
  | ok a => exact ⟨a, rfl, h⟩
  | error e => simp [Bind.bind, Except.bind] at h

/-- A default skills record (only used to name concrete results in
witnesses). -/
def skillsResultD : SkillsResult :=
  { met := false, candidateSkillsCount := 0, requiredSkillsCount := 0,
    percentage := 0, matchedSkills := [], missingSkills := [],
    skillMatchDetails := [], details := "", score := 0, allCandidateSkills := [] }

/-- Extract the value of a successful computation, with a default. -/
def okD {ε α : Type} (dflt : α) : Except ε α → α
  | .ok a => a
  | .error _ => dflt

/-- A resume with skills `aaaa` and `bbbb` (concrete claim instances). -/
def rdC3 : PyVal := vdict [("skills", vlist [vstr "aaaa", vstr "bbbb"])]

/-- A JD requiring `aaaa`, `bbbb` and `cccc` (concrete claim instances). -/
def jdC3 : PyVal := vdict [("requiredSkills", vlist [vstr "aaaa", vstr "bbbb", vstr "cccc"])]

/-- C3 counterexample: with 3 required skills and 2 matched, the code computes
`percentage = int((2/3)*100) = 66` and `score = int((2/3)*40) = 26`, while the
claim's formulas `round(100*2/3)` and `round(40*2/3)` give 67 and 27. -/
theorem c3_round_counterexample :
    (check_skills_match ratioZero grpNone rdC3 jdC3).map SkillsResult.matchedSkills =
      .ok ["aaaa", "bbbb"] ∧
    (check_skills_match ratioZero grpNone rdC3 jdC3).map SkillsResult.requiredSkillsCount =
      .ok 3 ∧
    (check_skills_match ratioZero grpNone rdC3 jdC3).map SkillsResult.percentage = .ok 66 ∧
    pyRound (100 * 2 / 3 : ℚ) = 67 ∧ (66 : ℤ) ≠ 67 ∧
    (check_skills_match ratioZero grpNone rdC3 jdC3).map SkillsResult.score = .ok 26 ∧
    pyRound (40 * 2 / 3 : ℚ) = 27 := by
  refine ⟨by decide, by decide, by decide, by decide, by decide, by decide, by decide⟩

/-- C3 (amended): whenever `check_skills_match` returns a result, then with
`m` the number of matched required skills and `n` the required count: if
`n = 0` the result is auto-met with score 40 and percentage 100; otherwise
`percentage = floor(100 * m / n)` (not round), `score = 0` when `m = 0` and
`max 1 (floor (40 * m / n))` otherwise (again floor, not round), and
`met ↔ percentage ≥ 50`. -/
theorem c3_skills_formula (ratio : String → String → ℚ) (grp : String → Option String)
    (rd jd : PyVal) (res : SkillsResult)
    (h : check_skills_match ratio grp rd jd = .ok res) :
    (res.requiredSkillsCount = 0 →
      res.met = true ∧ res.score = 40 ∧ res.percentage = 100) ∧
    (res.requiredSkillsCount ≠ 0 →
      res.percentage =
        ⌊(100 * res.matchedSkills.length : ℚ) / res.requiredSkillsCount⌋ ∧
      res.score = (if res.matchedSkills.length = 0 then 0
        else max 1 ⌊(40 * res.matchedSkills.length : ℚ) / res.requiredSkillsCount⌋) ∧
      (res.met = true ↔ 50 ≤ res.percentage)) := by
  unfold check_skills_match at h
  obtain ⟨csl, hcsl, h⟩ := exc_bind_ok h
  obtain ⟨cit, hcit, h⟩ := exc_bind_ok h
  obtain ⟨cs, hcs, h⟩ := exc_bind_ok h
  obtain ⟨rsl, hrsl, h⟩ := exc_bind_ok h
  obtain ⟨rit, hrit, h⟩ := exc_bind_ok h
  by_cases hemp : (extractReqSkills rit).isEmpty
  · rw [if_pos hemp] at h
    simp only [Pure.pure, Except.pure, Except.ok.injEq] at h
    subst h
    constructor
    · intro _
      exact ⟨rfl, rfl, rfl⟩
    · intro hn
      exact absurd rfl hn
  · rw [if_neg hemp] at h
    simp only [Pure.pure, Except.pure, Except.ok.injEq] at h
    subst h
    have hn : (extractReqSkills rit).length ≠ 0 := by
      intro h0
      exact hemp (List.isEmpty_iff.mpr (List.length_eq_zero.mp h0))
    have hnpos : (0 : ℚ) < (extractReqSkills rit).length := by
      have := Nat.pos_of_ne_zero hn
      exact_mod_cast this
    constructor
    · intro h0
      exact absurd h0 hn
    · intro _
      set m := (skillLoop ratio grp cs (extractReqSkills rit)).1.length with hm
      set n := (extractReqSkills rit).length with hnn
      have hper : pyTrunc ((m : ℚ) / n * 100) = ⌊(100 * m : ℚ) / n⌋ := by
        rw [pyTrunc_nonneg_eq_floor (by positivity)]
        ring_nf
      have hsc : pyTrunc ((m : ℚ) / n * 40) = ⌊(40 * m : ℚ) / n⌋ := by
        rw [pyTrunc_nonneg_eq_floor (by positivity)]
        ring_nf
      refine ⟨hper, ?_, ?_⟩
      · by_cases hm0 : (skillLoop ratio grp cs (extractReqSkills rit)).1.isEmpty
        · rw [if_pos hm0]
          have : m = 0 := by
            rw [hm, List.length_eq_zero]
            exact List.isEmpty_iff.mp hm0
          simp [this]
        · rw [if_neg hm0]
          have : m ≠ 0 := by
            intro h0
            exact hm0 (List.isEmpty_iff.mpr (List.length_eq_zero.mp (hm ▸ h0)))
          simp [this, hsc]
      · simp [decide_eq_true_eq]

theorem c3_skills_formula_witness :
    check_skills_match ratioZero grpNone rdC3 jdC3 =
      .ok (okD skillsResultD (check_skills_match ratioZero grpNone rdC3 jdC3)) ∧
    ((okD skillsResultD (check_skills_match ratioZero grpNone rdC3 jdC3)).requiredSkillsCount = 0 →
      (okD skillsResultD (check_skills_match ratioZero grpNone rdC3 jdC3)).met = true ∧
      (okD skillsResultD (check_skills_match ratioZero grpNone rdC3 jdC3)).score = 40 ∧
      (okD skillsResultD (check_skills_match ratioZero grpNone rdC3 jdC3)).percentage = 100) ∧
    ((okD skillsResultD (check_skills_match ratioZero grpNone rdC3 jdC3)).requiredSkillsCount ≠ 0 →
      (okD skillsResultD (check_skills_match ratioZero grpNone rdC3 jdC3)).percentage =
        ⌊(100 * (okD skillsResultD (check_skills_match ratioZero grpNone rdC3 jdC3)).matchedSkills.length : ℚ) /
          (okD skillsResultD (check_skills_match ratioZero grpNone rdC3 jdC3)).requiredSkillsCount⌋ ∧
      (okD skillsResultD (check_skills_match ratioZero grpNone rdC3 jdC3)).score =
        (if (okD skillsResultD (check_skills_match ratioZero grpNone rdC3 jdC3)).matchedSkills.length = 0 then 0
        else max 1 ⌊(40 * (okD skillsResultD (check_skills_match ratioZero grpNone rdC3 jdC3)).matchedSkills.length : ℚ) /
          (okD skillsResultD (check_skills_match ratioZero grpNone rdC3 jdC3)).requiredSkillsCount⌋) ∧
      ((okD skillsResultD (check_skills_match ratioZero grpNone rdC3 jdC3)).met = true ↔
        50 ≤ (okD skillsResultD (check_skills_match ratioZero grpNone rdC3 jdC3)).percentage)) := by
  have h : check_skills_match ratioZero grpNone rdC3 jdC3 =
      .ok (okD skillsResultD (check_skills_match ratioZero grpNone rdC3 jdC3)) := by decide
  exact ⟨h, c3_skills_formula ratioZero grpNone rdC3 jdC3 _ h⟩

/-- The adjustment factor always lies in `[1/4, 1]`. -/
theorem adjustment_factor_bounds (q : ℚ) :
    1/4 ≤ calculate_domain_adjustment_factor q ∧
    calculate_domain_adjustment_factor q ≤ 1 := by
  unfold calculate_domain_adjustment_factor
  split_ifs <;> norm_num

/-- A default experience record (used to name concrete results in
witnesses). -/
def expResultD : ExpResult :=
  { met := false, candidateExperience := 0, requiredExperience := 0,
    details := "", score := 0, percentage := 0 }

/-- A default education record. -/
def eduResultD : EduResult :=
  { met := false, candidateDegree := vnone, requiredDegree := vnone,
    details := "", score := 0, percentage := 0, isOverqualified := false }

/-- A default compatibility record. -/
def domainCompatD : DomainCompat :=
  { score := 0, percentage := 0, level := "", resume_domain := vnone,
    jd_domain := vnone, details := "" }

/-- A default match output record. -/
def matchOutputD : MatchOutput :=
  { resumeDomain := vnone, jdDomain := vnone, domainCompat := domainCompatD,
    domainAdjustment := 0, experienceMatch := expResultD,
    educationMatch := eduResultD, skillsMatch := skillsResultD,
    sectionScores := (0, 0, 0), rawOverallScore := 0, overallScore := 0,
    assessment := ("", ""), gaps := [], recommendations := [], summary := "" }

/-- Bounds of the clamp-truncate-adjust combination used for the overall
score. -/
theorem overall_bounds_aux (S q adj : ℚ) (hadj : 1/4 ≤ adj ∧ adj ≤ 1) :
    0 ≤ (if q < 85 then ((pyTrunc (min 100 (max 0 S) * adj) : ℤ) : ℚ)
      else min 100 (max 0 S)) ∧
    (if q < 85 then ((pyTrunc (min 100 (max 0 S) * adj) : ℤ) : ℚ)
      else min 100 (max 0 S)) ≤ 100 := by
  have hraw0 : (0 : ℚ) ≤ min 100 (max 0 S) := le_min (by norm_num) (le_max_left 0 S)
  have hraw100 : min 100 (max 0 S) ≤ 100 := min_le_left _ _
  by_cases hlt : q < 85
  · rw [if_pos hlt]
    have hmul0 : (0 : ℚ) ≤ min 100 (max 0 S) * adj :=
      mul_nonneg hraw0 (le_trans (by norm_num) hadj.1)
    have hmul100 : min 100 (max 0 S) * adj ≤ 100 := by
      calc min 100 (max 0 S) * adj ≤ min 100 (max 0 S) * 1 :=
            mul_le_mul_of_nonneg_left hadj.2 hraw0
        _ = min 100 (max 0 S) := mul_one _
        _ ≤ 100 := hraw100
    rw [pyTrunc_nonneg_eq_floor hmul0]
    constructor
    · exact_mod_cast Int.floor_nonneg.mpr hmul0
    · exact le_trans (Int.floor_le _) hmul100
  · rw [if_neg hlt]
    exact ⟨hraw0, hraw100⟩

/-- C1: whenever `calculate_match` returns a result — for every similarity
function, analogy map, pair of records and weight triple, including resumes
with empty skill and education lists — the overall score lies in `[0, 100]`:
the raw score is clamped to `[0, 100]` and the domain adjustment factor lies
in `[1/4, 1]`, so the truncated adjusted score stays in range. -/
theorem c1_overall_score_bounds (ratio : String → String → ℚ)
    (grp : String → Option String) (rd jd : PyVal) (cw : Option Weights)
    (res : MatchOutput) (h : calculate_match ratio grp rd jd cw = .ok res) :
    0 ≤ res.overallScore ∧ res.overallScore ≤ 100 := by
  unfold calculate_match at h
  by_cases htr : (!truthy rd || !truthy jd) = true
  · rw [if_pos htr] at h
    simp at h
  · rw [if_neg htr] at h
    obtain ⟨rdom, hrdom, h⟩ := exc_bind_ok h
    obtain ⟨jdom, hjdom, h⟩ := exc_bind_ok h
    obtain ⟨dc, hdc, h⟩ := exc_bind_ok h
    obtain ⟨ex, hex, h⟩ := exc_bind_ok h
    obtain ⟨edu, hedu, h⟩ := exc_bind_ok h
    obtain ⟨sk, hsk, h⟩ := exc_bind_ok h
    simp only [Pure.pure, Except.pure, Except.ok.injEq] at h
    subst h
    exact overall_bounds_aux _ _ _ (adjustment_factor_bounds dc.score)

theorem c1_overall_score_bounds_witness :
    calculate_match ratioZero grpNone (vdict [("role", vstr "x")])
        (vdict [("jobTitle", vstr "y")]) none =
      .ok (((calculate_match ratioZero grpNone (vdict [("role", vstr "x")])
        (vdict [("jobTitle", vstr "y")]) none).toOption).getD matchOutputD) ∧
    0 ≤ (((calculate_match ratioZero grpNone (vdict [("role", vstr "x")])
        (vdict [("jobTitle", vstr "y")]) none).toOption).getD matchOutputD).overallScore ∧
    (((calculate_match ratioZero grpNone (vdict [("role", vstr "x")])
        (vdict [("jobTitle", vstr "y")]) none).toOption).getD matchOutputD).overallScore ≤ 100 := by
  have h : calculate_match ratioZero grpNone (vdict [("role", vstr "x")])
      (vdict [("jobTitle", vstr "y")]) none =
      .ok (((calculate_match ratioZero grpNone (vdict [("role", vstr "x")])
        (vdict [("jobTitle", vstr "y")]) none).toOption).getD matchOutputD) := by decide
  have hb := c1_overall_score_bounds ratioZero grpNone (vdict [("role", vstr "x")])
    (vdict [("jobTitle", vstr "y")]) none _ h
  exact ⟨h, hb.1, hb.2⟩

/-- A present `domain` value is acceptable when it is falsy or hashable
(`dict.get` raises on truthy lists/dicts used as keys). -/
def domainFieldOk : Option PyVal → Bool
  | none => true
  | some v => !truthy v || !unhashable v

/-- A present skill-entry `name` value must be a string (or absent): anything
else raises in `skill.get("name", "").strip()`. -/
def nameFieldOk : Option PyVal → Bool
  | none => true
  | some (vstr _) => true
  | some _ => false

/-- One candidate skill entry is well-typed when a dict entry carries an
absent-or-string name; all non-dict entries go through `str()` and never
raise. -/
def skillEntryOk : PyVal → Bool
  | vdict d => nameFieldOk (dlookup "name" d)
  | _ => true

/-- A present `skills` value must be iterable; its list entries must be
well-typed. -/
def skillsFieldOk : Option PyVal → Bool
  | none => true
  | some (vlist l) => l.all skillEntryOk
  | some (vstr _) => true
  | some (vdict _) => true
  | some _ => false

/-- A present `requiredSkills` value must be iterable. -/
def reqSkillsFieldOk : Option PyVal → Bool
  | none => true
  | some (vlist _) => true
  | some (vstr _) => true
  | some (vdict _) => true
  | some _ => false

/-- A present year-count value is acceptable when `float(value or 0)` does
not return an infinity or NaN: a non-finite year makes the `int()` calls
outside the `try` of `check_experience_match` raise
(`OverflowError`/`ValueError`).  Values float() rejects are fine — that
exception is caught by the bare `except`. -/
def yearsFieldOk : Option PyVal → Bool
  | none => true
  | some v =>
      match pyFloat (pyOrZero v) with
      | .ok (.inf _) => false
      | .ok .nan => false
      | _ => true

/-- A resume record on which `calculate_match` cannot raise: a dict whose
`domain` and `skills` fields, when present, are well-typed, and whose
`totalYearsExperience` does not coerce to an infinite or NaN float.  All
other fields (education, ...) degrade without raising whatever their
value. -/
def wellTypedResume : PyVal → Bool
  | vdict d => domainFieldOk (dlookup "domain" d) && skillsFieldOk (dlookup "skills" d) &&
      yearsFieldOk (dlookup "totalYearsExperience" d)
  | _ => false

/-- A JD record on which `calculate_match` cannot raise. -/
def wellTypedJD : PyVal → Bool
  | vdict d => domainFieldOk (dlookup "domain" d) &&
      reqSkillsFieldOk (dlookup "requiredSkills" d) &&
      yearsFieldOk (dlookup "minExperienceYears" d)
  | _ => false

/-- Rewriting a bind whose left side is known to succeed. -/
theorem bind_isOk_of_ok {ε α β : Type} {x : Except ε α} {f : α → Except ε β} {a : α}
    (h : x = .ok a) : (x >>= f).isOk = (f a).isOk := by
  subst h
  rfl

/-- A successful computation yields a value. -/
theorem isOk_exists {ε α : Type} {e : Except ε α} (h : e.isOk = true) :
    ∃ a, e = .ok a := by
  cases e with
  | ok a => exact ⟨a, rfl⟩
  | error _ => simp [Except.isOk, Except.toBool] at h

/-- `get_domain_compatibility` succeeds whenever each truthy side is
hashable. -/
theorem gdc_isOk {a b : PyVal} (ha : truthy a = true → unhashable a = false)
    (hb : truthy b = true → unhashable b = false) :
    (get_domain_compatibility a b).isOk = true := by
  unfold get_domain_compatibility
  cases hta : truthy a with
  | false => simp [hta, Except.isOk, Except.toBool]
  | true =>
      cases htb : truthy b with
      | false => simp [hta, htb, Except.isOk, Except.toBool]
      | true => simp [hta, htb, ha hta, hb htb, Except.isOk, Except.toBool]

/-- `check_education_match` never raises on dict inputs. -/
theorem education_isOk (d1 d2 : List (String × PyVal)) :
    (check_education_match (vdict d1) (vdict d2)).isOk = true := by
  unfold check_education_match
  rw [bind_isOk_of_ok (show pyGet (vdict d1) "education" (vlist []) =
    .ok ((dlookup "education" d1).getD (vlist [])) from rfl)]
  rw [bind_isOk_of_ok (show pyGet (vdict d2) "requiredEducation" (vstr "not specified") =
    .ok ((dlookup "requiredEducation" d2).getD (vstr "not specified")) from rfl)]
  rfl

/-- `check_experience_match` returns a result whenever neither year field
coerces to an infinite or NaN float (the caught-exception path falls back to
`(0, 0)`, which is finite). -/
theorem experience_isOk {d1 d2 : List (String × PyVal)}
    (h1 : yearsFieldOk (dlookup "totalYearsExperience" d1) = true)
    (h2 : yearsFieldOk (dlookup "minExperienceYears" d2) = true) :
    (check_experience_match (vdict d1) (vdict d2)).isOk = true := by
  have hfin : ∀ (o : Option PyVal), yearsFieldOk o = true →
      ∀ {f : PyFloat}, pyFloat (pyOrZero (o.getD (vnum 0))) = .ok f →
      ∃ q, f = .fin q := by
    intro o ho f hf
    rcases o with _ | v
    · have hf2 : pyFloat (pyOrZero (vnum 0)) = .ok f := hf
      have hv : pyFloat (pyOrZero (vnum 0)) = .ok (.fin 0) := by decide
      rw [hv] at hf2
      exact ⟨0, ((Except.ok.injEq _ _).mp hf2).symm⟩
    · have hf2 : pyFloat (pyOrZero v) = .ok f := hf
      simp only [yearsFieldOk] at ho
      rw [hf2] at ho
      cases f with
      | fin q => exact ⟨q, rfl⟩
      | inf b => simp at ho
      | nan => simp at ho
  have hexp : ∃ qa qb, expYears (vdict d1) (vdict d2) = (.fin qa, .fin qb) := by
    unfold expYears
    rw [show pyGet (vdict d1) "totalYearsExperience" (vnum 0) =
      .ok ((dlookup "totalYearsExperience" d1).getD (vnum 0)) from rfl]
    rw [show pyGet (vdict d2) "minExperienceYears" (vnum 0) =
      .ok ((dlookup "minExperienceYears" d2).getD (vnum 0)) from rfl]
    cases hfa : pyFloat (pyOrZero ((dlookup "totalYearsExperience" d1).getD (vnum 0))) with
    | error e1 => exact ⟨0, 0, by simp [hfa]⟩
    | ok fa =>
        obtain ⟨qa, hqa⟩ := hfin _ h1 hfa
        cases hfb : pyFloat (pyOrZero ((dlookup "minExperienceYears" d2).getD (vnum 0))) with
        | error e2 => exact ⟨0, 0, by simp [hfa, hfb]⟩
        | ok fb =>
            obtain ⟨qb, hqb⟩ := hfin _ h2 hfb
            exact ⟨qa, qb, by simp [hfa, hfb, hqa, hqb]⟩
  obtain ⟨qa, qb, hab⟩ := hexp
  unfold check_experience_match
  rw [hab]
  rfl

/-- One well-typed skill entry yields a name without raising. -/
theorem candSkillName_isOk {e : PyVal} (h : skillEntryOk e = true) :
    (candSkillName e).isOk = true := by
  cases e with
  | vdict d =>
      have h1 : nameFieldOk (dlookup "name" d) = true := by
        simpa [skillEntryOk] using h
      rcases hn : dlookup "name" d with _ | v
      · simp [candSkillName, hn, pyStripStr, Except.isOk, Except.toBool]
      · rw [hn] at h1
        cases v <;> simp [nameFieldOk] at h1 <;>
          simp [candSkillName, hn, pyStripStr, Except.isOk, Except.toBool]
  | vnone => rfl
  | vbool b => rfl
  | vnum q => rfl
  | vstr s => rfl
  | vlist xs => rfl

/-- The candidate-skill extraction never raises when every entry is
well-typed. -/
theorem extractCandSkills_isOk {l : List PyVal} (h : l.all skillEntryOk = true) :
    (extractCandSkills l).isOk = true := by
  induction l with
  | nil => rfl
  | cons e rest ih =>
      simp only [List.all_cons, Bool.and_eq_true] at h
      obtain ⟨n, hn⟩ := isOk_exists (candSkillName_isOk h.1)
      obtain ⟨tl, htl⟩ := isOk_exists (ih h.2)
      unfold extractCandSkills
      rw [hn, htl]
      rfl

/-- `check_skills_match` never raises when the skills fields are
well-typed. -/
theorem skills_isOk (ratio : String → String → ℚ) (grp : String → Option String)
    {d1 d2 : List (String × PyVal)}
    (h1 : skillsFieldOk (dlookup "skills" d1) = true)
    (h2 : reqSkillsFieldOk (dlookup "requiredSkills" d2) = true) :
    (check_skills_match ratio grp (vdict d1) (vdict d2)).isOk = true := by
  unfold check_skills_match
  rw [bind_isOk_of_ok (show pyGet (vdict d1) "skills" (vlist []) =
    .ok ((dlookup "skills" d1).getD (vlist [])) from rfl)]
  have hiter1 : ∃ it, pyIter ((dlookup "skills" d1).getD (vlist [])) = .ok it ∧
      it.all skillEntryOk = true := by
    rcases hs : dlookup "skills" d1 with _ | v
    · exact ⟨[], rfl, rfl⟩
    · rw [hs] at h1
      cases v with
      | vlist l =>
          refine ⟨l, rfl, ?_⟩
          simpa [skillsFieldOk] using h1
      | vstr s =>
          refine ⟨_, rfl, ?_⟩
          rw [List.all_eq_true]
          intro x hx
          rw [List.mem_map] at hx
          obtain ⟨c, _, hc⟩ := hx
          rw [← hc]
          rfl
      | vdict dd =>
          refine ⟨_, rfl, ?_⟩
          rw [List.all_eq_true]
          intro x hx
          rw [List.mem_map] at hx
          obtain ⟨kv, _, hkv⟩ := hx
          rw [← hkv]
          rfl
      | vnone => simp [skillsFieldOk] at h1
      | vbool b => simp [skillsFieldOk] at h1
      | vnum q => simp [skillsFieldOk] at h1
  obtain ⟨it, hit, hall⟩ := hiter1
  rw [bind_isOk_of_ok hit]
  obtain ⟨cs, hcs⟩ := isOk_exists (extractCandSkills_isOk hall)
  rw [bind_isOk_of_ok hcs]
  rw [bind_isOk_of_ok (show pyGet (vdict d2) "requiredSkills" (vlist []) =
    .ok ((dlookup "requiredSkills" d2).getD (vlist [])) from rfl)]
  have hiter2 : ∃ it2, pyIter ((dlookup "requiredSkills" d2).getD (vlist [])) = .ok it2 := by
    rcases hs : dlookup "requiredSkills" d2 with _ | v
    · exact ⟨[], rfl⟩
    · rw [hs] at h2
      cases v <;> simp [reqSkillsFieldOk] at h2 <;> exact ⟨_, rfl⟩
  obtain ⟨it2, hit2⟩ := hiter2
  rw [bind_isOk_of_ok hit2]
  by_cases hemp : (extractReqSkills it2).isEmpty <;>
    simp [hemp, Except.isOk, Except.toBool, Pure.pure, Except.pure]

/-- C2 counterexample: a present (truthy, non-null) resume record with a
wrong-typed `skills` field makes `calculate_match` raise, refuting both the
only-if direction of the claim and the never-fails-on-malformed half. -/
theorem c2_malformed_raises_counterexample :
    truthy (vdict [("skills", vnone)]) = true ∧
    truthy (vdict [("jobTitle", vstr "x")]) = true ∧
    (calculate_match ratioZero grpNone (vdict [("skills", vnone)])
      (vdict [("jobTitle", vstr "x")]) none).isOk = false := by
  refine ⟨by decide, by decide, by decide⟩

/-- C2 (amended): `calculate_match` raises whenever either input is falsy
(null or an empty record); it can also raise on present records whose
`domain`, `skills`, `requiredSkills` or skill-entry `name` fields are
wrong-typed, or whose year fields coerce to an infinite or NaN float; but
for every pair of well-typed records — in particular for records with
arbitrarily missing sub-fields, which degrade to 0/"not specified" — it
returns a result, for every similarity function, analogy map and weight
triple. -/
theorem c2_error_behavior (ratio : String → String → ℚ) (grp : String → Option String)
    (rd jd : PyVal) (cw : Option Weights) :
    ((truthy rd = false ∨ truthy jd = false) →
      (calculate_match ratio grp rd jd cw).isOk = false) ∧
    (truthy rd = true → truthy jd = true →
      wellTypedResume rd = true → wellTypedJD jd = true →
      (calculate_match ratio grp rd jd cw).isOk = true) := by
  constructor
  · intro h
    unfold calculate_match
    have : (!truthy rd || !truthy jd) = true := by
      rcases h with h | h <;> simp [h]
    rw [if_pos this]
    rfl
  · intro htr1 htr2 h1 h2
    cases rd with
    | vdict d1 =>
        cases jd with
        | vdict d2 =>
            simp only [wellTypedResume, Bool.and_eq_true] at h1
            simp only [wellTypedJD, Bool.and_eq_true] at h2
            unfold calculate_match
            have htr : (!truthy (vdict d1) || !truthy (vdict d2)) = false := by
              simp only [Bool.or_eq_false_iff, Bool.not_eq_false']
              exact ⟨htr1, htr2⟩
            rw [htr]
            rw [if_neg (by simp)]
            rw [bind_isOk_of_ok (show pyGet (vdict d1) "domain" (vstr "Unknown") =
              .ok ((dlookup "domain" d1).getD (vstr "Unknown")) from rfl)]
            rw [bind_isOk_of_ok (show pyGet (vdict d2) "domain" (vstr "Unknown") =
              .ok ((dlookup "domain" d2).getD (vstr "Unknown")) from rfl)]
            have hdom1 : truthy ((dlookup "domain" d1).getD (vstr "Unknown")) = true →
                unhashable ((dlookup "domain" d1).getD (vstr "Unknown")) = false := by
              intro htru
              rcases hs : dlookup "domain" d1 with _ | v
              · rfl
              · rw [hs] at h1
                have := h1.1.1
                simp only [domainFieldOk] at this
                rw [hs] at htru
                simp only [Option.getD] at htru ⊢
                rcases Bool.or_eq_true _ _ |>.mp this with h | h
                · rw [Bool.not_eq_eq_eq_not, Bool.not_true] at h
                  rw [h] at htru
                  cases htru
                · rwa [Bool.not_eq_eq_eq_not, Bool.not_true] at h
            have hdom2 : truthy ((dlookup "domain" d2).getD (vstr "Unknown")) = true →
                unhashable ((dlookup "domain" d2).getD (vstr "Unknown")) = false := by
              intro htru
              rcases hs : dlookup "domain" d2 with _ | v
              · rfl
              · rw [hs] at h2
                have := h2.1.1
                simp only [domainFieldOk] at this
                rw [hs] at htru
                simp only [Option.getD] at htru ⊢
                rcases Bool.or_eq_true _ _ |>.mp this with h | h
                · rw [Bool.not_eq_eq_eq_not, Bool.not_true] at h
                  rw [h] at htru
                  cases htru
                · rwa [Bool.not_eq_eq_eq_not, Bool.not_true] at h
            obtain ⟨dc, hdc⟩ := isOk_exists (gdc_isOk hdom1 hdom2)
            rw [bind_isOk_of_ok hdc]
            obtain ⟨exr, hexr⟩ := isOk_exists (experience_isOk h1.2 h2.2)
            rw [bind_isOk_of_ok hexr]
            obtain ⟨edu, hedu⟩ := isOk_exists (education_isOk d1 d2)
            rw [bind_isOk_of_ok hedu]
            obtain ⟨sk, hsk⟩ := isOk_exists (skills_isOk ratio grp h1.1.2 h2.1.2)
            rw [bind_isOk_of_ok hsk]
            rfl
        | vnone => simp [wellTypedJD] at h2
        | vbool b => simp [wellTypedJD] at h2
        | vnum q => simp [wellTypedJD] at h2
        | vstr s => simp [wellTypedJD] at h2
        | vlist l => simp [wellTypedJD] at h2
    | vnone => simp [wellTypedResume] at h1
    | vbool b => simp [wellTypedResume] at h1
    | vnum q => simp [wellTypedResume] at h1
    | vstr s => simp [wellTypedResume] at h1
    | vlist l => simp [wellTypedResume] at h1

theorem c2_error_behavior_witness :
    (truthy vnone = false ∨ truthy (vdict [("jobTitle", vstr "x")]) = false) ∧
    (calculate_match ratioZero grpNone vnone (vdict [("jobTitle", vstr "x")]) none).isOk = false ∧
    truthy (vdict [("role", vstr "r")]) = true ∧
    truthy (vdict [("jobTitle", vstr "x")]) = true ∧
    wellTypedResume (vdict [("role", vstr "r")]) = true ∧
    wellTypedJD (vdict [("jobTitle", vstr "x")]) = true ∧
    (calculate_match ratioZero grpNone (vdict [("role", vstr "r")])
      (vdict [("jobTitle", vstr "x")]) none).isOk = true :=
  ⟨Or.inl (by decide),
    (c2_error_behavior ratioZero grpNone vnone (vdict [("jobTitle", vstr "x")]) none).1
      (Or.inl (by decide)),
    by decide, by decide, by decide, by decide,
    (c2_error_behavior ratioZero grpNone (vdict [("role", vstr "r")])
      (vdict [("jobTitle", vstr "x")]) none).2 (by decide) (by decide) (by decide) (by decide)⟩

/-- Setting one key leaves every other key unchanged. -/
theorem dlookup_dset_ne {k k2 : String} {v : PyVal} {d : List (String × PyVal)}
    (h : k2 ≠ k) : dlookup k (dset k2 v d) = dlookup k d := by
  induction d with
  | nil => simp [dset, dlookup, h]
  | cons e rest ih =>
      obtain ⟨ke, ve⟩ := e
      by_cases hk : ke = k2
      · subst hk
        simp [dset, dlookup, h, ih]
      · simp only [dset, if_neg hk]
        by_cases hk2 : ke = k
        · subst hk2
          simp [dlookup]
        · simp [dlookup, hk2, ih]

/-- Setting a key makes its lookup return the new value. -/
theorem dlookup_dset_self {k : String} {v : PyVal} {d : List (String × PyVal)} :
    dlookup k (dset k v d) = some v := by
  induction d with
  | nil => simp [dset, dlookup]
  | cons e rest ih =>
      obtain ⟨ke, ve⟩ := e
      by_cases hk : ke = k
      · subst hk
        simp [dset, dlookup]
      · simp [dset, dlookup, hk, ih]

/-- The keys written by `validate_data_types` for each document type. -/
def touchedKeys (doc_type : String) : List String :=
  if doc_type = "Resume" then
    ["totalYearsExperience", "skills", "education", "experienceDetails"]
  else ["minExperienceYears", "requiredSkills", "preferredSkills"]

theorem vdtStepNum_frame {key k : String} {d d1 : List (String × PyVal)} (h : key ≠ k)
    (hok : vdtStepNum key d = .ok d1) : dlookup k d1 = dlookup k d := by
  unfold vdtStepNum at hok
  split at hok
  case _ v hkv =>
    split at hok
    case _ n hcv =>
      injection hok with h1
      rw [← h1]
      exact dlookup_dset_ne h
    case _ e hcv => cases hok
  case _ hkv =>
    injection hok with h1
    rw [← h1]

theorem vdtStepSkills_frame {k : String} {d : List (String × PyVal)}
    (h : "skills" ≠ k) : dlookup k (vdtStepSkills d) = dlookup k d := by
  unfold vdtStepSkills
  rcases dlookup "skills" d with _ | v
  · rfl
  · cases v <;> exact dlookup_dset_ne h

theorem vdtStepListField_frame {key k : String} {d : List (String × PyVal)}
    (h : key ≠ k) : dlookup k (vdtStepListField key d) = dlookup k d := by
  unfold vdtStepListField
  rcases dlookup key d with _ | v
  · rfl
  · cases v <;> first | rfl | exact dlookup_dset_ne h

theorem vdtStepStrList_frame {key k : String} {d : List (String × PyVal)}
    (h : key ≠ k) : dlookup k (vdtStepStrList key d) = dlookup k d := by
  unfold vdtStepStrList
  rcases dlookup key d with _ | v
  · exact dlookup_dset_ne h
  · cases v <;> exact dlookup_dset_ne h

/-- C8 counterexample: validation is not non-mutating — Python updates the
parsed dict in place and returns that same object, so after the call the
input object's `skills` field holds the coerced list, not the original
one. -/
theorem c8_mutation_counterexample :
    validate_data_types [("skills", vlist [vstr "python"])] "Resume" ≠
      [("skills", vlist [vstr "python"])] ∧
    dlookup "skills" (validate_data_types [("skills", vlist [vstr "python"])] "Resume") =
      some (vlist [vdict [("name", vstr "python"), ("proficiency", vstr "unknown")]]) := by
  refine ⟨by decide, by decide⟩

/-- C8 (amended): `validate_data_types` coerces the type-checked fields of
the parsed object in place and returns that same object; every key outside
the touched set (Resume: totalYearsExperience, skills, education,
experienceDetails; otherwise: minExperienceYears, requiredSkills,
preferredSkills) holds the same value after the call as before — on every
path, including the `OverflowError` abort of the outer `except`, which only
skips writes to touched keys. -/
theorem c8_validate_frame (data : List (String × PyVal)) (doc_type k : String)
    (h : k ∉ touchedKeys doc_type) :
    dlookup k (validate_data_types data doc_type) = dlookup k data := by
  unfold validate_data_types
  by_cases hdt : doc_type = "Resume"
  · rw [if_pos hdt]
    have h1 : "totalYearsExperience" ≠ k := by
      intro he
      apply h
      rw [← he, hdt]
      decide
    have h2 : "skills" ≠ k := by
      intro he
      apply h
      rw [← he, hdt]
      decide
    have h3 : "education" ≠ k := by
      intro he
      apply h
      rw [← he, hdt]
      decide
    have h4 : "experienceDetails" ≠ k := by
      intro he
      apply h
      rw [← he, hdt]
      decide
    split
    case _ d1 heq =>
      rw [vdtStepListField_frame h4, vdtStepListField_frame h3,
        vdtStepSkills_frame h2, vdtStepNum_frame h1 heq]
    case _ e heq => rfl
  · rw [if_neg hdt]
    have h1 : "minExperienceYears" ≠ k := by
      intro he
      apply h
      rw [← he]
      simp [touchedKeys, hdt]
    have h2 : "requiredSkills" ≠ k := by
      intro he
      apply h
      rw [← he]
      simp [touchedKeys, hdt]
    have h3 : "preferredSkills" ≠ k := by
      intro he
      apply h
      rw [← he]
      simp [touchedKeys, hdt]
    split
    case _ d1 heq =>
      rw [vdtStepStrList_frame h3, vdtStepStrList_frame h2, vdtStepNum_frame h1 heq]
    case _ e heq => rfl

theorem c8_validate_frame_witness :
    ("role" ∉ touchedKeys "Resume") ∧
    dlookup "role" (validate_data_types
      [("role", vstr "dev"), ("skills", vlist [vstr "python"])] "Resume") =
      dlookup "role" [("role", vstr "dev"), ("skills", vlist [vstr "python"])] :=
  ⟨by decide,
    c8_validate_frame [("role", vstr "dev"), ("skills", vlist [vstr "python"])]
      "Resume" "role" (by decide)⟩

/-- C9 counterexample: a bare empty-string skill entry survives validation
with an empty `name` — the string branch of the normalization loop appends
`{name: s, proficiency: "unknown"}` without checking that `s` is nonempty,
so a validated resume can carry a skill whose name is empty. -/
theorem c9_empty_name_counterexample :
    skillsListOf (validate_data_types [("skills", vlist [vstr ""])] "Resume") =
      [vdict [("name", vstr ""), ("proficiency", vstr "unknown")]] ∧
    dlookup "name" [("name", vstr ""), ("proficiency", vstr "unknown")] =
      some (vstr "") ∧
    truthy (vstr "") = false := by
  refine ⟨by decide, by decide, by decide⟩

/-- C9 (amended): provided the numeric coercion of `totalYearsExperience`
does not abort validation (no escaping `OverflowError`, e.g. the field is
absent, numeric in range, or a non-coercible string), every entry of the
validated skills list is a dict carrying a `name` key; entries that came
from objects have a truthy name (falsy or missing names are dropped, as are
non-string non-dict entries), while a bare string `s` — including the empty
string — survives as `{name: s, proficiency: "unknown"}`; hence every such
validated name is either truthy or the (kept) empty string.  When the
coercion does overflow, the outer `except Exception: pass` skips the skills
normalization entirely and the skills list is returned as it came in. -/
theorem c9_validated_skill_names (data : List (String × PyVal)) (e : PyVal)
    (hok : (vdtStepNum "totalYearsExperience" data).isOk = true)
    (h : e ∈ skillsListOf (validate_data_types data "Resume")) :
    ∃ nd, e = vdict nd ∧ ∃ v, dlookup "name" nd = some v ∧
      (truthy v = true ∨ v = vstr "") := by
  obtain ⟨d1, hd1⟩ := isOk_exists hok
  unfold validate_data_types at h
  rw [if_pos rfl] at h
  simp only [hd1] at h
  unfold skillsListOf at h
  rw [vdtStepListField_frame (by decide), vdtStepListField_frame (by decide)] at h
  unfold vdtStepSkills at h
  rcases hsk : dlookup "skills" d1 with _ | v
  · simp [hsk] at h
  · cases v with
    | vlist l =>
        simp only [hsk] at h
        rw [dlookup_dset_self] at h
        simp only at h
        unfold normalizeSkillsList at h
        rw [List.mem_filterMap] at h
        obtain ⟨a, _, ha⟩ := h
        cases a with
        | vdict nd =>
            have ha2 : (match dlookup "name" nd with
                | some nv => if truthy nv = true then some (vdict nd) else none
                | none => none) = some e := ha
            rcases hn : dlookup "name" nd with _ | nv
            · rw [hn] at ha2
              exact Option.noConfusion ha2
            · rw [hn] at ha2
              have ha3 : (if truthy nv = true then some (vdict nd) else none) = some e := ha2
              by_cases ht : truthy nv = true
              · rw [if_pos ht] at ha3
                exact ⟨nd, ((Option.some.injEq _ _).mp ha3).symm, nv, hn, Or.inl ht⟩
              · rw [if_neg ht] at ha3
                exact Option.noConfusion ha3
        | vstr s =>
            have ha2 : some (vdict [("name", vstr s), ("proficiency", vstr "unknown")]) =
                some e := ha
            refine ⟨[("name", vstr s), ("proficiency", vstr "unknown")],
              ((Option.some.injEq _ _).mp ha2).symm, vstr s, by simp [dlookup], ?_⟩
            by_cases hs : s = ""
            · exact Or.inr (by rw [hs])
            · exact Or.inl (by simp [truthy, hs])
        | vnone => exact Option.noConfusion ((rfl : (none : Option PyVal) = _).trans ha)
        | vbool b => exact Option.noConfusion ((rfl : (none : Option PyVal) = _).trans ha)
        | vnum q => exact Option.noConfusion ((rfl : (none : Option PyVal) = _).trans ha)
        | vlist xs => exact Option.noConfusion ((rfl : (none : Option PyVal) = _).trans ha)
    | vstr s =>
        simp only [hsk] at h
        rw [dlookup_dset_self] at h
        simp at h
    | vdict dd =>
        simp only [hsk] at h
        rw [dlookup_dset_self] at h
        simp at h
    | vnone =>
        simp only [hsk] at h
        rw [dlookup_dset_self] at h
        simp at h
    | vbool b =>
        simp only [hsk] at h
        rw [dlookup_dset_self] at h
        simp at h
    | vnum q =>
        simp only [hsk] at h
        rw [dlookup_dset_self] at h
        simp at h

theorem c9_validated_skill_names_witness :
    (vdtStepNum "totalYearsExperience" [("skills", vlist [vstr "python"])]).isOk = true ∧
    vdict [("name", vstr "python"), ("proficiency", vstr "unknown")] ∈
      skillsListOf (validate_data_types [("skills", vlist [vstr "python"])] "Resume") ∧
    (∃ nd, vdict [("name", vstr "python"), ("proficiency", vstr "unknown")] = vdict nd ∧
      ∃ v, dlookup "name" nd = some v ∧ (truthy v = true ∨ v = vstr "")) :=
  ⟨by decide, by decide,
    c9_validated_skill_names [("skills", vlist [vstr "python"])] _ (by decide) (by decide)⟩

theorem c5_domain_compatibility_witness :
    ("Sales/Marketing" : String) ≠ "" ∧ ("IT/Software" : String) ≠ "" ∧
    (compatScore (get_domain_compatibility (vstr "Sales/Marketing") (vstr "IT/Software")) =
      matrixScore "Sales/Marketing" "IT/Software" ∧
     (alookup "IT/Software"
        ((alookup "Sales/Marketing" DOMAIN_COMPATIBILITY_MATRIX).getD []) = none →
       compatScore (get_domain_compatibility (vstr "Sales/Marketing") (vstr "IT/Software")) = 0) ∧
     compatLevel (get_domain_compatibility (vstr "Sales/Marketing") (vstr "IT/Software")) =
       (if 85 ≤ matrixScore "Sales/Marketing" "IT/Software" then "Perfect"
        else if 60 ≤ matrixScore "Sales/Marketing" "IT/Software" then "Good"
        else if 35 ≤ matrixScore "Sales/Marketing" "IT/Software" then "Acceptable"
        else "Poor")) :=
  ⟨by decide, by decide,
    (c5_domain_compatibility "Sales/Marketing" "IT/Software").2.2 (by decide) (by decide)⟩

-- ==================== C7: idempotence of fix_json_string ====================

/-- Character-set hypothesis for the amended idempotence claim: printable
ASCII, no comma, no backslash, none of the capitals `N`, `T`, `F`. -/
def charOkIn (c : Char) : Bool :=
  decide (32 ≤ c.toNat) && decide (c.toNat ≤ 126) && !decide (c = ',') &&
  !decide (c = bsch) && !decide (c = 'N') && !decide (c = 'T') && !decide (c = 'F')

/-- Characters that can appear at any later stage of the pipeline on such
input: additionally free of the apostrophe and the backtick, which fix 1
rewrites away. -/
def okCh (c : Char) : Bool :=
  decide (32 ≤ c.toNat) && !decide (c = ',') && !decide (c = bsch) &&
  !decide (c = 'N') && !decide (c = 'T') && !decide (c = 'F') &&
  !decide (c = apch) && !decide (c = btch)

/-- No two adjacent whitespace characters. -/
def noDbl : List Char → Bool
  | a :: b :: r => !(isPySpace a && isPySpace b) && noDbl (b :: r)
  | _ => true

/-- No suffix of the list triggers the unquoted-key rewrite: every `{` or `,`
is followed by text that `keyParse` rejects. -/
def noTrigB : List Char → Bool
  | [] => true
  | c :: rest => (!(c = obch || c = ',') || (keyParse rest).isNone) && noTrigB rest

theorem okCh_spec {x : Char} (h : okCh x = true) :
    32 ≤ x.toNat ∧ ¬x = ',' ∧ ¬x = bsch ∧ ¬x = 'N' ∧ ¬x = 'T' ∧ ¬x = 'F' ∧
      ¬x = apch ∧ ¬x = btch := by
  unfold okCh at h
  simp only [Bool.and_eq_true, Bool.not_eq_true', decide_eq_true_eq,
    decide_eq_false_iff_not] at h
  tauto

theorem count_zero_of_okCh {l : List Char} (h : ∀ x ∈ l, okCh x = true) {d : Char}
    (hd : okCh d = false) : l.count d = 0 := by
  rw [List.count_eq_zero]
  intro hmem
  rw [h d hmem] at hd
  cases hd

theorem isPySpace_space {c : Char} (h : isPySpace c = true) (h2 : 32 ≤ c.toNat) :
    c = ' ' := by
  unfold isPySpace at h
  simp only [Bool.or_eq_true, decide_eq_true_eq] at h
  rcases h with ((((h | h) | h) | h) | h) | h <;> subst h <;>
    first
    | rfl
    | (revert h2; decide)

theorem sp_not_trig (x : Char) (hx : isPySpace x = true) :
    (x = obch || x = ',') = false := by
  unfold isPySpace at hx
  simp only [Bool.or_eq_true, decide_eq_true_eq] at hx
  rcases hx with ((((h | h) | h) | h) | h) | h <;> subst h <;> decide

theorem word_not_trig (x : Char) (hx : isWordChar x = true) :
    (x = obch || x = ',') = false := by
  by_cases h1 : x = obch
  · subst h1
    revert hx
    decide
  · by_cases h2 : x = ','
    · subst h2
      revert hx
      decide
    · simp [h1, h2]

theorem wordChar_not_space {c : Char} (h : isWordChar c = true) :
    isPySpace c = false := by
  cases hsp : isPySpace c
  · rfl
  · unfold isPySpace at hsp
    simp only [Bool.or_eq_true, decide_eq_true_eq] at hsp
    rcases hsp with ((((h1 | h1) | h1) | h1) | h1) | h1 <;> subst h1 <;> revert h <;> decide

theorem map_id_of {f : Char → Char} : ∀ {l : List Char}, (∀ c ∈ l, f c = c) →
    l.map f = l := by
  intro l h
  induction l with
  | nil => rfl
  | cons c t ih =>
      rw [List.map_cons, h c (List.mem_cons_self c t),
        ih fun x hx => h x (List.mem_cons_of_mem c hx)]

theorem fixQuotes_id {l : List Char} (h : ∀ c ∈ l, ¬c = apch ∧ ¬c = btch) :
    fixQuotes l = l := by
  unfold fixQuotes
  apply map_id_of
  intro c hc
  rw [if_neg]
  simp [(h c hc).1, (h c hc).2]

theorem fixNewlines_id {l : List Char} (h : ∀ c ∈ l, 32 ≤ c.toNat) :
    fixNewlines l = l := by
  unfold fixNewlines
  apply map_id_of
  intro c hc
  have h32 := h c hc
  have h10 : ¬c = Char.ofNat 10 := by
    intro he
    subst he
    revert h32
    decide
  have h13 : ¬c = Char.ofNat 13 := by
    intro he
    subst he
    revert h32
    decide
  have h9 : ¬c = Char.ofNat 9 := by
    intro he
    subst he
    revert h32
    decide
  rw [if_neg]
  simp [h10, h13, h9]

theorem dropTrailingCommaF_id : ∀ (f : ℕ) {l : List Char}, l.count ',' = 0 →
    dropTrailingCommaF f l = l := by
  intro f
  induction f with
  | zero => intro l _; rfl
  | succ f ih =>
      intro l h
      cases l with
      | nil => rfl
      | cons c rest =>
          rw [List.count_cons] at h
          by_cases hc : c = ','
          · subst hc
            simp at h
          · simp only [hc, beq_iff_eq, if_false] at h
            rw [show dropTrailingCommaF (f + 1) (c :: rest) =
              c :: dropTrailingCommaF f rest by simp [dropTrailingCommaF, hc]]
            rw [ih (by omega)]

theorem dropTrailingComma_id {l : List Char} (h : l.count ',' = 0) :
    dropTrailingComma l = l := dropTrailingCommaF_id l.length h

theorem unescapeQuotes_id : ∀ {l : List Char}, l.count bsch = 0 →
    unescapeQuotes l = l := by
  intro l
  induction l with
  | nil => intro _; rfl
  | cons a t ih =>
      cases t with
      | nil => intro _; rfl
      | cons b r =>
          intro h
          rw [List.count_cons] at h
          by_cases ha : a = bsch
          · subst ha
            simp at h
          · simp only [ha, beq_iff_eq, if_false] at h
            rw [show unescapeQuotes (a :: b :: r) = a :: unescapeQuotes (b :: r) by
              simp [unescapeQuotes, ha]]
            rw [ih (by omega)]

theorem keepPrintable_id {l : List Char} (h : ∀ c ∈ l, 32 ≤ c.toNat) :
    keepPrintable l = l := by
  unfold keepPrintable
  rw [List.filter_eq_self]
  intro c hc
  simp [h c hc]

theorem replWordGoF_id {w0 : Char} {wt t : List Char} :
    ∀ (fuel : ℕ) (prevW : Bool) {l : List Char}, l.count w0 = 0 →
      replWordGoF w0 wt t fuel prevW l = l := by
  intro fuel
  induction fuel with
  | zero => intro _ l _; rfl
  | succ f ih =>
      intro prevW l h
      cases l with
      | nil => rfl
      | cons c rest =>
          rw [List.count_cons] at h
          have hcw : ¬w0 = c := by
            intro he
            rw [← he] at h
            simp at h
          have hsw : listStartsWith (w0 :: wt) (c :: rest) = false := by
            simp [listStartsWith, hcw]
          rw [show replWordGoF w0 wt t (f + 1) prevW (c :: rest) =
            c :: replWordGoF w0 wt t f (isWordChar c) rest by simp [replWordGoF, hsw]]
          have hrest : rest.count w0 = 0 := by
            have hce : ¬c = w0 := fun he => hcw he.symm
            simp only [hce, beq_iff_eq, if_false] at h
            omega
          rw [ih _ hrest]

theorem fixLiterals_id {l : List Char} (hN : l.count 'N' = 0) (hT : l.count 'T' = 0)
    (hF : l.count 'F' = 0) : fixLiterals l = l := by
  unfold fixLiterals
  rw [show replWord noneW ['n', 'u', 'l', 'l'] false l =
    replWordGoF 'N' ['o', 'n', 'e'] ['n', 'u', 'l', 'l'] l.length false l from rfl]
  rw [replWordGoF_id _ _ hN]
  rw [show replWord trueW ['t', 'r', 'u', 'e'] false l =
    replWordGoF 'T' ['r', 'u', 'e'] ['t', 'r', 'u', 'e'] l.length false l from rfl]
  rw [replWordGoF_id _ _ hT]
  rw [show replWord falseW ['f', 'a', 'l', 's', 'e'] false l =
    replWordGoF 'F' ['a', 'l', 's', 'e'] ['f', 'a', 'l', 's', 'e'] l.length false l from rfl]
  rw [replWordGoF_id _ _ hF]

theorem qk_nil (f : ℕ) : quoteKeysF f [] = [] := by
  cases f <;> rfl

theorem qk_head (f : ℕ) (c : Char) (r : List Char) :
    ∃ z, quoteKeysF f (c :: r) = c :: z := by
  cases f with
  | zero => exact ⟨r, rfl⟩
  | succ g =>
      by_cases hc : (c = obch || c = ',') = true
      · rcases hkp : keyParse r with _ | ⟨sp1, word, sp2, r4⟩
        · exact ⟨quoteKeysF g r, by simp [quoteKeysF, hc, hkp]⟩
        · exact ⟨qch :: (word ++ qch :: ':' :: quoteKeysF g r4),
            by simp [quoteKeysF, hc, hkp]⟩
      · exact ⟨quoteKeysF g r, by simp [quoteKeysF, hc]⟩

theorem qk_dropWhile_p (p : Char → Bool)
    (hp : ∀ x, p x = true → (x = obch || x = ',') = false) :
    ∀ (f : ℕ) (l : List Char),
      ∃ g, (quoteKeysF f l).dropWhile p = quoteKeysF g (l.dropWhile p) := by
  intro f
  induction f with
  | zero => intro l; exact ⟨0, rfl⟩
  | succ f ih =>
      intro l
      cases l with
      | nil => exact ⟨0, rfl⟩
      | cons c rest =>
          by_cases hc : (c = obch || c = ',') = true
          · have hpc : ¬p c = true := by
              intro hpc
              rw [hp c hpc] at hc
              cases hc
            obtain ⟨z, hz⟩ := qk_head (f + 1) c rest
            rw [hz, List.dropWhile_cons_of_neg hpc, List.dropWhile_cons_of_neg hpc]
            exact ⟨f + 1, hz.symm⟩
          · by_cases hpc : p c = true
            · rw [show quoteKeysF (f + 1) (c :: rest) = c :: quoteKeysF f rest by
                simp [quoteKeysF, hc]]
              rw [List.dropWhile_cons_of_pos hpc, List.dropWhile_cons_of_pos hpc]
              exact ih rest
            · obtain ⟨z, hz⟩ := qk_head (f + 1) c rest
              rw [hz, List.dropWhile_cons_of_neg hpc, List.dropWhile_cons_of_neg hpc]
              exact ⟨f + 1, hz.symm⟩

theorem keyParse_word {l sp1 word sp2 r4 : List Char}
    (h : keyParse l = some (sp1, word, sp2, r4)) :
    ∀ x ∈ word, isWordChar x = true := by
  unfold keyParse at h
  split at h
  case _ c r1t heq =>
    by_cases hks : isKeyStart c = true
    rotate_left
    · rw [if_neg hks] at h
      simp at h
    rw [if_pos hks] at h
    · split at h
      case _ r4x heq2 =>
        simp only [Option.some.injEq, Prod.mk.injEq] at h
        obtain ⟨h1, h2, h3, h4⟩ := h
        subst h2
        intro x hx
        exact mem_takeWhile_pred hx
      case _ => simp at h
  case _ => simp at h

theorem keyParse_qch (z : List Char) : keyParse (qch :: z) = none := by
  unfold keyParse
  rw [List.dropWhile_cons_of_neg (by decide)]
  simp [show isKeyStart qch = false by decide]

theorem keyParse_none_spec {l : List Char} (h : keyParse l = none) :
    l.dropWhile isPySpace = [] ∨
    ∃ d t, l.dropWhile isPySpace = d :: t ∧
      (isKeyStart d = false ∨
       ∀ r4, ((d :: t).dropWhile isWordChar).dropWhile isPySpace ≠ ':' :: r4) := by
  unfold keyParse at h
  split at h
  case _ c tail heq =>
    right
    refine ⟨c, tail, heq, ?_⟩
    by_cases hks : isKeyStart c = true
    · right
      rw [if_pos hks] at h
      intro r4 hcon
      rw [hcon] at h
      simp at h
    · left
      simpa using hks
  case _ heq => left; exact heq

theorem keyParse_none_build {l : List Char}
    (h : l.dropWhile isPySpace = [] ∨
      ∃ d t, l.dropWhile isPySpace = d :: t ∧
        (isKeyStart d = false ∨
         ∀ r4, ((d :: t).dropWhile isWordChar).dropWhile isPySpace ≠ ':' :: r4)) :
    keyParse l = none := by
  unfold keyParse
  split
  case _ c tail heq =>
    rcases h with h | ⟨d, t, hdt, hcase⟩
    · rw [h] at heq
      cases heq
    · rw [hdt] at heq
      injection heq with h1 h2
      subst h1
      subst h2
      rcases hcase with hks | hnc
      · rw [if_neg (by simp [hks])]
      · by_cases hks : isKeyStart d = true
        · rw [if_pos hks]
          split
          case _ r4x heq2 => exact absurd heq2 (hnc r4x)
          case _ => rfl
        · rw [if_neg hks]
  case _ heq => rfl

theorem keyParse_none_qk (f : ℕ) (l : List Char) (h : keyParse l = none) :
    keyParse (quoteKeysF f l) = none := by
  obtain ⟨g1, hg1⟩ := qk_dropWhile_p isPySpace sp_not_trig f l
  rcases keyParse_none_spec h with hnil | ⟨d, t1, hdt, hcase⟩
  · exact keyParse_none_build (Or.inl (by rw [hg1, hnil, qk_nil]))
  · rw [hdt] at hg1
    obtain ⟨z1, hz1⟩ := qk_head g1 d t1
    rw [hz1] at hg1
    rcases hcase with hks | hnc
    · exact keyParse_none_build (Or.inr ⟨d, z1, hg1, Or.inl hks⟩)
    · refine keyParse_none_build (Or.inr ⟨d, z1, hg1, Or.inr ?_⟩)
      intro r4 hcon
      rw [← hz1] at hcon
      obtain ⟨g2, hg2⟩ := qk_dropWhile_p isWordChar word_not_trig g1 (d :: t1)
      rw [hg2] at hcon
      obtain ⟨g3, hg3⟩ :=
        qk_dropWhile_p isPySpace sp_not_trig g2 ((d :: t1).dropWhile isWordChar)
      rw [hg3] at hcon
      rcases hM : ((d :: t1).dropWhile isWordChar).dropWhile isPySpace with _ | ⟨e, t2⟩
      · rw [hM, qk_nil] at hcon
        cases hcon
      · rw [hM] at hcon
        obtain ⟨z2, hz2⟩ := qk_head g3 e t2
        rw [hz2] at hcon
        injection hcon with h1 h2
        exact hnc t2 (by rw [hM, h1])

theorem noTrig_cons_nt {x : Char} {y : List Char} (hx : (x = obch || x = ',') = false)
    (hy : noTrigB y = true) : noTrigB (x :: y) = true := by
  unfold noTrigB
  rw [hx]
  simp [hy]

theorem noTrig_append_words {w y : List Char} (hw : ∀ x ∈ w, isWordChar x = true)
    (hy : noTrigB y = true) : noTrigB (w ++ y) = true := by
  induction w with
  | nil => simpa using hy
  | cons a wt ih =>
      rw [List.cons_append]
      exact noTrig_cons_nt (word_not_trig a (hw a (List.mem_cons_self a wt)))
        (ih fun x hx => hw x (List.mem_cons_of_mem a hx))

theorem noTrig_qk : ∀ (f : ℕ) (l : List Char), l.length ≤ f →
    noTrigB (quoteKeysF f l) = true := by
  intro f
  induction f with
  | zero =>
      intro l hl
      rw [List.length_eq_zero.mp (Nat.le_zero.mp hl)]
      rfl
  | succ f ih =>
      intro l hl
      cases l with
      | nil => rfl
      | cons c rest =>
          have hrest : rest.length ≤ f := by
            rw [List.length_cons] at hl
            omega
          by_cases hc : (c = obch || c = ',') = true
          · rcases hkp : keyParse rest with _ | ⟨sp1, word, sp2, r4⟩
            · rw [show quoteKeysF (f + 1) (c :: rest) = c :: quoteKeysF f rest by
                simp [quoteKeysF, hc, hkp]]
              unfold noTrigB
              rw [keyParse_none_qk f rest hkp]
              simp [ih rest hrest]
            · rw [show quoteKeysF (f + 1) (c :: rest) =
                c :: qch :: (word ++ qch :: ':' :: quoteKeysF f r4) by
                  simp [quoteKeysF, hc, hkp]]
              have hr4len : r4.length ≤ f := by
                have := keyParse_some_length hkp
                omega
              have hrec := ih r4 hr4len
              have hwords := keyParse_word hkp
              have htail : noTrigB (qch :: (word ++ qch :: ':' :: quoteKeysF f r4)) = true :=
                noTrig_cons_nt (by decide)
                  (noTrig_append_words hwords
                    (noTrig_cons_nt (by decide)
                      (noTrig_cons_nt (by decide) hrec)))
              unfold noTrigB
              rw [keyParse_qch]
              simp [htail]
          · rw [show quoteKeysF (f + 1) (c :: rest) = c :: quoteKeysF f rest by
              simp [quoteKeysF, hc]]
            exact noTrig_cons_nt (by simpa using hc) (ih rest hrest)

theorem quoteKeysF_id : ∀ (f : ℕ) (l : List Char), noTrigB l = true →
    quoteKeysF f l = l := by
  intro f
  induction f with
  | zero => intro l _; rfl
  | succ f ih =>
      intro l hl
      cases l with
      | nil => rfl
      | cons c rest =>
          have htl : noTrigB rest = true := by
            unfold noTrigB at hl
            exact (Bool.and_eq_true _ _ |>.mp hl).2
          by_cases hc : (c = obch || c = ',') = true
          · have hkp : keyParse rest = none := by
              unfold noTrigB at hl
              have h1 := (Bool.and_eq_true _ _ |>.mp hl).1
              rw [hc] at h1
              simp at h1
              exact h1
            rw [show quoteKeysF (f + 1) (c :: rest) = c :: quoteKeysF f rest by
              simp [quoteKeysF, hc, hkp]]
            rw [ih rest htl]
          · rw [show quoteKeysF (f + 1) (c :: rest) = c :: quoteKeysF f rest by
              simp [quoteKeysF, hc]]
            rw [ih rest htl]

theorem quoteKeys_id {l : List Char} (h : noTrigB l = true) : quoteKeys l = l :=
  quoteKeysF_id l.length l h

theorem dropWhile_head_false {p : Char → Bool} :
    ∀ {l : List Char} {e : Char} {xs : List Char},
      l.dropWhile p = e :: xs → p e = false := by
  intro l
  induction l with
  | nil =>
      intro e xs h
      rw [List.dropWhile_nil] at h
      cases h
  | cons a t ih =>
      intro e xs h
      by_cases ha : p a = true
      · rw [List.dropWhile_cons_of_pos ha] at h
        exact ih h
      · rw [List.dropWhile_cons_of_neg ha] at h
        injection h with h1 h2
        rw [← h1]
        simpa using ha

theorem collapseWsF_nil (f : ℕ) : collapseWsF f [] = [] := by
  cases f <;> rfl

theorem noDbl_tail {a : Char} {y : List Char} (h : noDbl (a :: y) = true) :
    noDbl y = true := by
  cases y with
  | nil => rfl
  | cons b r =>
      unfold noDbl at h
      exact (Bool.and_eq_true _ _ |>.mp h).2

theorem noDbl_head2 {a b : Char} {r : List Char} (h : noDbl (a :: b :: r) = true) :
    (isPySpace a && isPySpace b) = false := by
  unfold noDbl at h
  have h1 := (Bool.and_eq_true _ _ |>.mp h).1
  cases hab : (isPySpace a && isPySpace b)
  · rfl
  · rw [hab] at h1
    exact absurd h1 (by decide)

theorem noDbl_cons_nospace {a : Char} {y : List Char} (ha : isPySpace a = false)
    (hy : noDbl y = true) : noDbl (a :: y) = true := by
  cases y with
  | nil => rfl
  | cons b r =>
      unfold noDbl
      simp [ha, hy]

theorem noDbl_append_right : ∀ {x y : List Char}, noDbl (x ++ y) = true →
    noDbl y = true := by
  intro x
  induction x with
  | nil => intro y h; simpa using h
  | cons a xt ih =>
      intro y h
      rw [List.cons_append] at h
      exact ih (noDbl_tail h)

theorem noDbl_append_nospace {xs ys : List Char}
    (hxs : ∀ x ∈ xs, isPySpace x = false) (hys : noDbl ys = true) :
    noDbl (xs ++ ys) = true := by
  induction xs with
  | nil => simpa using hys
  | cons a xt ih =>
      rw [List.cons_append]
      exact noDbl_cons_nospace (hxs a (List.mem_cons_self a xt))
        (ih fun x hx => hxs x (List.mem_cons_of_mem a hx))

theorem collapseWsF_id : ∀ (f : ℕ) {l : List Char},
    (∀ c ∈ l, isPySpace c = true → c = ' ') → noDbl l = true →
    collapseWsF f l = l := by
  intro f
  induction f with
  | zero => intro l _ _; rfl
  | succ f ih =>
      intro l hsp hnd
      cases l with
      | nil => rfl
      | cons c rest =>
          by_cases hc : isPySpace c = true
          · have hce : c = ' ' := hsp c (List.mem_cons_self c rest) hc
            have hdw : rest.dropWhile isPySpace = rest := by
              cases rest with
              | nil => rfl
              | cons d r =>
                  have h2 := noDbl_head2 hnd
                  rw [hc] at h2
                  simp only [Bool.true_and] at h2
                  exact List.dropWhile_cons_of_neg (by simp [h2])
            rw [show collapseWsF (f + 1) (c :: rest) =
              ' ' :: collapseWsF f (rest.dropWhile isPySpace) by simp [collapseWsF, hc]]
            rw [hdw, ih (fun x hx => hsp x (List.mem_cons_of_mem c hx)) (noDbl_tail hnd),
              hce]
          · rw [show collapseWsF (f + 1) (c :: rest) = c :: collapseWsF f rest by
              simp [collapseWsF, hc]]
            rw [ih (fun x hx => hsp x (List.mem_cons_of_mem c hx)) (noDbl_tail hnd)]

theorem collapseWs_id {l : List Char} (hsp : ∀ c ∈ l, isPySpace c = true → c = ' ')
    (hnd : noDbl l = true) : collapseWs l = l := collapseWsF_id l.length hsp hnd

theorem noDbl_collapseWsF : ∀ (f : ℕ) (l : List Char), l.length ≤ f →
    noDbl (collapseWsF f l) = true := by
  intro f
  induction f with
  | zero =>
      intro l hl
      rw [List.length_eq_zero.mp (Nat.le_zero.mp hl)]
      rfl
  | succ f ih =>
      intro l hl
      cases l with
      | nil => rfl
      | cons c rest =>
          have hrest : rest.length ≤ f := by
            rw [List.length_cons] at hl
            omega
          by_cases hc : isPySpace c = true
          · rw [show collapseWsF (f + 1) (c :: rest) =
              ' ' :: collapseWsF f (rest.dropWhile isPySpace) by simp [collapseWsF, hc]]
            have hdlen : (rest.dropWhile isPySpace).length ≤ f :=
              le_trans (List.dropWhile_sublist _).length_le hrest
            have hXnd := ih (rest.dropWhile isPySpace) hdlen
            rcases hR : rest.dropWhile isPySpace with _ | ⟨e, xs⟩
            · rw [collapseWsF_nil]
              rfl
            · have he : isPySpace e = false := dropWhile_head_false hR
              have hhead : ∃ z, collapseWsF f (e :: xs) = e :: z := by
                cases f with
                | zero => exact ⟨xs, rfl⟩
                | succ g => exact ⟨collapseWsF g xs, by simp [collapseWsF, he]⟩
              obtain ⟨z, hz⟩ := hhead
              rw [hz]
              rw [hR, hz] at hXnd
              unfold noDbl
              simp [he, hXnd]
          · rw [show collapseWsF (f + 1) (c :: rest) = c :: collapseWsF f rest by
              simp [collapseWsF, hc]]
            have hc' : isPySpace c = false := by simpa using hc
            exact noDbl_cons_nospace hc' (ih rest hrest)

theorem noDbl_collapseWs (l : List Char) : noDbl (collapseWs l) = true :=
  noDbl_collapseWsF l.length l le_rfl

theorem noDbl_quoteKeysF : ∀ (f : ℕ) {l : List Char}, noDbl l = true →
    noDbl (quoteKeysF f l) = true := by
  intro f
  induction f with
  | zero => intro l h; exact h
  | succ f ih =>
      intro l hnd
      cases l with
      | nil => rfl
      | cons c rest =>
          by_cases hc : (c = obch || c = ',') = true
          · have hcsp : isPySpace c = false := by
              simp only [Bool.or_eq_true, decide_eq_true_eq] at hc
              rcases hc with rfl | rfl <;> decide
            rcases hkp : keyParse rest with _ | ⟨sp1, word, sp2, r4⟩
            · rw [show quoteKeysF (f + 1) (c :: rest) = c :: quoteKeysF f rest by
                simp [quoteKeysF, hc, hkp]]
              exact noDbl_cons_nospace hcsp (ih (noDbl_tail hnd))
            · rw [show quoteKeysF (f + 1) (c :: rest) =
                c :: qch :: (word ++ qch :: ':' :: quoteKeysF f r4) by
                  simp [quoteKeysF, hc, hkp]]
              obtain ⟨hdecomp, _, _⟩ := keyParse_decomp hkp
              have hndr4 : noDbl r4 = true := by
                have h1 : noDbl rest = true := noDbl_tail hnd
                rw [hdecomp] at h1
                exact noDbl_tail (noDbl_append_right h1)
              have hwords := keyParse_word hkp
              refine noDbl_cons_nospace hcsp (noDbl_cons_nospace (by decide) ?_)
              refine noDbl_append_nospace
                (fun x hx => wordChar_not_space (hwords x hx)) ?_
              exact noDbl_cons_nospace (by decide)
                (noDbl_cons_nospace (by decide) (ih hndr4))
          · rw [show quoteKeysF (f + 1) (c :: rest) = c :: quoteKeysF f rest by
              simp [quoteKeysF, hc]]
            rcases hrest : rest with _ | ⟨e, xs⟩
            · rw [qk_nil]
              rfl
            · subst hrest
              obtain ⟨z, hz⟩ := qk_head f e xs
              rw [hz]
              have hXnd : noDbl (e :: z) = true := by
                have h2 := ih (noDbl_tail hnd)
                rw [hz] at h2
                exact h2
              have hpair : (isPySpace c && isPySpace e) = false := noDbl_head2 hnd
              unfold noDbl
              simp only [hpair, Bool.not_false, Bool.true_and]
              exact hXnd

theorem noDbl_quoteKeys {l : List Char} (h : noDbl l = true) :
    noDbl (quoteKeys l) = true := noDbl_quoteKeysF l.length h

theorem charOkIn_spec {x : Char} (h : charOkIn x = true) :
    32 ≤ x.toNat ∧ ¬x = ',' ∧ ¬x = bsch ∧ ¬x = 'N' ∧ ¬x = 'T' ∧ ¬x = 'F' := by
  unfold charOkIn at h
  simp only [Bool.and_eq_true, Bool.not_eq_true', decide_eq_true_eq,
    decide_eq_false_iff_not] at h
  tauto

theorem okCh_intro {x : Char} (h1 : 32 ≤ x.toNat) (h2 : ¬x = ',') (h3 : ¬x = bsch)
    (h4 : ¬x = 'N') (h5 : ¬x = 'T') (h6 : ¬x = 'F') (h7 : ¬x = apch)
    (h8 : ¬x = btch) : okCh x = true := by
  unfold okCh
  simp only [Bool.and_eq_true, Bool.not_eq_true', decide_eq_true_eq,
    decide_eq_false_iff_not]
  tauto

theorem mem_fixQuotes {x : Char} {l : List Char} (h : x ∈ fixQuotes l) :
    x = qch ∨ (x ∈ l ∧ ¬x = apch ∧ ¬x = btch) := by
  unfold fixQuotes at h
  rw [List.mem_map] at h
  obtain ⟨c, hc, he⟩ := h
  by_cases hca : (c = apch || c = btch) = true
  · rw [if_pos hca] at he
    exact Or.inl he.symm
  · rw [if_neg hca] at he
    subst he
    simp only [Bool.or_eq_true, decide_eq_true_eq, not_or] at hca
    exact Or.inr ⟨hc, hca.1, hca.2⟩

theorem mem_collapseWsF : ∀ (f : ℕ) {l : List Char} {x : Char},
    x ∈ collapseWsF f l → x = ' ' ∨ x ∈ l := by
  intro f
  induction f with
  | zero => intro l x h; exact Or.inr h
  | succ f ih =>
      intro l x h
      cases l with
      | nil =>
          rw [show collapseWsF (f + 1) ([] : List Char) = [] from rfl] at h
          exact absurd h (List.not_mem_nil x)
      | cons c rest =>
          by_cases hc : isPySpace c = true
          · rw [show collapseWsF (f + 1) (c :: rest) =
              ' ' :: collapseWsF f (rest.dropWhile isPySpace) by
                simp [collapseWsF, hc]] at h
            rcases List.mem_cons.mp h with rfl | h2
            · exact Or.inl rfl
            · rcases ih h2 with h3 | h3
              · exact Or.inl h3
              · exact Or.inr (List.mem_cons_of_mem c ((List.dropWhile_sublist _).subset h3))
          · rw [show collapseWsF (f + 1) (c :: rest) = c :: collapseWsF f rest by
              simp [collapseWsF, hc]] at h
            rcases List.mem_cons.mp h with rfl | h2
            · exact Or.inr (List.mem_cons_self _ _)
            · rcases ih h2 with h3 | h3
              · exact Or.inl h3
              · exact Or.inr (List.mem_cons_of_mem c h3)

theorem mem_quoteKeysF : ∀ (f : ℕ) {l : List Char} {x : Char},
    x ∈ quoteKeysF f l → x = qch ∨ x = ':' ∨ x ∈ l := by
  intro f
  induction f with
  | zero => intro l x h; exact Or.inr (Or.inr h)
  | succ f ih =>
      intro l x h
      cases l with
      | nil =>
          rw [show quoteKeysF (f + 1) ([] : List Char) = [] from rfl] at h
          exact absurd h (List.not_mem_nil x)
      | cons c rest =>
          by_cases hc : (c = obch || c = ',') = true
          · rcases hkp : keyParse rest with _ | ⟨sp1, word, sp2, r4⟩
            · rw [show quoteKeysF (f + 1) (c :: rest) = c :: quoteKeysF f rest by
                simp [quoteKeysF, hc, hkp]] at h
              rcases List.mem_cons.mp h with rfl | h2
              · exact Or.inr (Or.inr (List.mem_cons_self _ _))
              · rcases ih h2 with h3 | h3 | h3
                · exact Or.inl h3
                · exact Or.inr (Or.inl h3)
                · exact Or.inr (Or.inr (List.mem_cons_of_mem c h3))
            · rw [show quoteKeysF (f + 1) (c :: rest) =
                c :: qch :: (word ++ qch :: ':' :: quoteKeysF f r4) by
                  simp [quoteKeysF, hc, hkp]] at h
              obtain ⟨hdecomp, _, _⟩ := keyParse_decomp hkp
              simp only [List.mem_cons, List.mem_append] at h
              rcases h with rfl | rfl | hw | rfl | rfl | hr
              · exact Or.inr (Or.inr (List.mem_cons_self _ _))
              · exact Or.inl rfl
              · refine Or.inr (Or.inr (List.mem_cons_of_mem c ?_))
                rw [hdecomp]
                simp [hw]
              · exact Or.inl rfl
              · exact Or.inr (Or.inl rfl)
              · rcases ih hr with h3 | h3 | h3
                · exact Or.inl h3
                · exact Or.inr (Or.inl h3)
                · refine Or.inr (Or.inr (List.mem_cons_of_mem c ?_))
                  rw [hdecomp]
                  simp [h3]
          · rw [show quoteKeysF (f + 1) (c :: rest) = c :: quoteKeysF f rest by
              simp [quoteKeysF, hc]] at h
            rcases List.mem_cons.mp h with rfl | h2
            · exact Or.inr (Or.inr (List.mem_cons_self _ _))
            · rcases ih h2 with h3 | h3 | h3
              · exact Or.inl h3
              · exact Or.inr (Or.inl h3)
              · exact Or.inr (Or.inr (List.mem_cons_of_mem c h3))

theorem okCh_fixQuotes {l : List Char} (h : ∀ c ∈ l, charOkIn c = true) :
    ∀ x ∈ fixQuotes l, okCh x = true := by
  intro x hx
  rcases mem_fixQuotes hx with rfl | ⟨hm, hap, hbt⟩
  · decide
  · obtain ⟨h1, h2, h3, h4, h5, h6⟩ := charOkIn_spec (h x hm)
    exact okCh_intro h1 h2 h3 h4 h5 h6 hap hbt

theorem okCh_collapseWs {l : List Char} (h : ∀ x ∈ l, okCh x = true) :
    ∀ x ∈ collapseWs l, okCh x = true := by
  intro x hx
  rcases mem_collapseWsF l.length hx with rfl | hm
  · decide
  · exact h x hm

theorem okCh_quoteKeys {l : List Char} (h : ∀ x ∈ l, okCh x = true) :
    ∀ x ∈ quoteKeys l, okCh x = true := by
  intro x hx
  rcases mem_quoteKeysF l.length hx with rfl | rfl | hm
  · decide
  · decide
  · exact h x hm

/-- C7 counterexample: `fix_json_string` is not idempotent.  On the input
`,,}` fix 3 removes only the second comma (the scan resumes past the
rewritten closer), so a second application removes the remaining comma and
the two results differ. -/
theorem c7_idempotence_counterexample :
    fix_json_string (fix_json_string [',', ',', cbch]) ≠
      fix_json_string [',', ',', cbch] := by
  decide

/-- C7 (amended): `fix_json_string ∘ fix_json_string = fix_json_string` does
hold on inputs made of printable ASCII characters (codes 32–126) that contain
no comma, no backslash and none of the capitals `N`, `T`, `F`.  On such input
every pass of a second application is the identity: fix 1 has already removed
apostrophes and backticks, fixes 2 and 8 are vacuous on printable characters,
fixes 3 and 5 see no commas or literal words, fix 4 sees no double spaces,
fix 6 finds no remaining unquoted key (quoting is stable), and fix 7 sees no
backslash. -/
theorem c7_fix_idempotent (l : List Char) (h : ∀ c ∈ l, charOkIn c = true) :
    fix_json_string (fix_json_string l) = fix_json_string l := by
  have hA : ∀ x ∈ fixQuotes l, okCh x = true := okCh_fixQuotes h
  have hFN : fixNewlines (fixQuotes l) = fixQuotes l :=
    fixNewlines_id fun c hc => (okCh_spec (hA c hc)).1
  have hDT : dropTrailingComma (fixQuotes l) = fixQuotes l :=
    dropTrailingComma_id (count_zero_of_okCh hA (by decide))
  have hDm : ∀ x ∈ collapseWs (fixQuotes l), okCh x = true := okCh_collapseWs hA
  have hDnd : noDbl (collapseWs (fixQuotes l)) = true := noDbl_collapseWs _
  have hFL : fixLiterals (collapseWs (fixQuotes l)) = collapseWs (fixQuotes l) :=
    fixLiterals_id (count_zero_of_okCh hDm (by decide))
      (count_zero_of_okCh hDm (by decide)) (count_zero_of_okCh hDm (by decide))
  have hOm : ∀ x ∈ quoteKeys (collapseWs (fixQuotes l)), okCh x = true :=
    okCh_quoteKeys hDm
  have hOnd : noDbl (quoteKeys (collapseWs (fixQuotes l))) = true :=
    noDbl_quoteKeys hDnd
  have hTrig : noTrigB (quoteKeys (collapseWs (fixQuotes l))) = true :=
    noTrig_qk _ _ le_rfl
  have hUE : unescapeQuotes (quoteKeys (collapseWs (fixQuotes l))) =
      quoteKeys (collapseWs (fixQuotes l)) :=
    unescapeQuotes_id (count_zero_of_okCh hOm (by decide))
  have hKP : keepPrintable (quoteKeys (collapseWs (fixQuotes l))) =
      quoteKeys (collapseWs (fixQuotes l)) :=
    keepPrintable_id fun c hc => (okCh_spec (hOm c hc)).1
  have hfix : fix_json_string l = quoteKeys (collapseWs (fixQuotes l)) := by
    unfold fix_json_string
    rw [hFN, hDT, hFL, hUE, hKP]
  rw [hfix]
  unfold fix_json_string
  rw [fixQuotes_id fun c hc => ⟨(okCh_spec (hOm c hc)).2.2.2.2.2.2.1,
    (okCh_spec (hOm c hc)).2.2.2.2.2.2.2⟩]
  rw [fixNewlines_id fun c hc => (okCh_spec (hOm c hc)).1]
  rw [dropTrailingComma_id (count_zero_of_okCh hOm (by decide))]
  rw [collapseWs_id (fun c hc hsp => isPySpace_space hsp (okCh_spec (hOm c hc)).1) hOnd]
  rw [fixLiterals_id (count_zero_of_okCh hOm (by decide))
    (count_zero_of_okCh hOm (by decide)) (count_zero_of_okCh hOm (by decide))]
  rw [quoteKeys_id hTrig]
  rw [unescapeQuotes_id (count_zero_of_okCh hOm (by decide)),
    keepPrintable_id fun c hc => (okCh_spec (hOm c hc)).1]

theorem c7_fix_idempotent_witness :
    (∀ c ∈ [obch, 'a', ':', ' ', '1', cbch], charOkIn c = true) ∧
    fix_json_string (fix_json_string [obch, 'a', ':', ' ', '1', cbch]) =
      fix_json_string [obch, 'a', ':', ' ', '1', cbch] :=
  ⟨by decide, c7_fix_idempotent [obch, 'a', ':', ' ', '1', cbch] (by decide)⟩
